import Mathlib

/-!
Verification of the Santander-Mind-Map core: the tree layout algorithm
(`layoutTree`) and the node height / visibility derivation pipeline that feeds
it (`calculateNodeHeight`, `displayedNodes`).

The TypeScript source is shallowly embedded:
  * numeric ids (JS `number`) become `Nat`;
  * geometry (JS `number`, exact for the integer-plus-halving arithmetic the
    layout performs) becomes `Rat`;
  * JS `Map` objects written by `set` and read by `get` become association
    lists where a `set` conses a fresh entry in front (last write wins) and
    `get` returns the first matching entry;
  * the recursive inner functions `calculateHeights` / `setPositions` /
    `getDescendants` and the `while` loops walking parent chains become
    fuel-indexed recursive functions; every call site passes fuel large enough
    that, on the acyclic inputs all theorems assume, the fuel is never
    exhausted (each recursion step visits a previously unvisited node, and
    there are at most `nodes.length` of them);
  * JS truthiness tests (`if (filterByMeetingId)`, `current.parentId ? … : …`)
    are modeled exactly: the number `0` and the empty string are falsy.
-/

/-! ## Data model (src/unnamed/part_000, lines 5-58) -/

structure Link where
  id : Nat
  url : String
  title : String
  type : String
  desktopUrl : Option String
  imageData : Option String
  deriving Repr, DecidableEq, Inhabited

structure Subtask where
  id : Nat
  text : String
  completed : Bool
  isEditing : Bool
  ownerIds : List Nat
  deriving Repr, DecidableEq, Inhabited

structure Owner where
  id : Nat
  name : String
  imageUrl : String
  teamsUrl : String
  deriving Repr, DecidableEq, Inhabited

structure Node where
  id : Nat
  text : String
  x : Rat
  y : Rat
  width : Rat
  height : Rat
  parentId : Option Nat
  links : List Link
  notes : String
  subtasks : List Subtask
  tags : List String
  ownerIds : List Nat
  priority : Nat
  meetingIds : List Nat
  isEditing : Bool
  deriving Repr, DecidableEq, Inhabited

/-! ## Constants (part_000 lines 70-86) -/

def BASE_NODE_HEIGHT : Rat := 60

def SUBTASK_HEIGHT : Rat := 28

def METADATA_ROW_HEIGHT : Rat := 40

def LINK_ROW_EXTRA_HEIGHT : Rat := 35

def H_SPACE : Rat := 120

def V_SPACE : Rat := 20

/-! ## Association-list rendering of JS `Map` objects

`amGet` renders `map.get(k)`; an entry is added by consing, so the most recent
`set` for a key wins, exactly as for a JS `Map`. -/

def amGet {α : Type} (m : List (Nat × α)) (k : Nat) : Option α :=
  (m.find? (fun e => e.1 == k)).map (fun e => e.2)

/-- `childrenMap.get(id)` of `layoutTree` (part_000 lines 92-98): the map sends
every id present in the collection to the input-ordered list of nodes whose
`parentId` equals it (the `childrenMap.has(n.parentId)` guard only drops nodes
whose parent id is absent, and those are exactly the ones this filter keeps out
of every queried bucket, since buckets are only queried at ids of visited
nodes, which are all present in the collection). -/
def childrenOf (nodes : List Node) (id : Nat) : List Node :=
  nodes.filter (fun n => n.parentId == some id)

/-- Post-order subtree-height pass of `layoutTree` (part_000 lines 103-115).
The returned association list renders the `subtreeHeights` map. -/
def calculateHeights (nodes : List Node) : Nat → Node → List (Nat × Rat) → List (Nat × Rat)
  | 0, _, sh => sh
  | fuel + 1, node, sh =>
    let children := childrenOf nodes node.id
    if children.isEmpty then
      (node.id, node.height) :: sh
    else
      let sh1 := children.foldl (fun acc c => calculateHeights nodes fuel c acc) sh
      let childrenHeight := children.foldl (fun acc c => acc + ((amGet sh1 c.id).getD 0)) 0
      let totalHeight := childrenHeight + ((children.length - 1 : Nat) : Rat) * V_SPACE
      (node.id, max totalHeight node.height) :: sh1

/-- Pre-order positioning pass of `layoutTree` (part_000 lines 117-128).
The accumulator pairs the `positionedNodes` map with the mutable `currentY`. -/
def setPositions (nodes : List Node) (sh : List (Nat × Rat)) :
    Nat → Node → Rat → Rat → List (Nat × Rat × Rat) → List (Nat × Rat × Rat)
  | 0, _, _, _, pos => pos
  | fuel + 1, node, x, y, pos =>
    let myHeight := (amGet sh node.id).getD 0
    let children := childrenOf nodes node.id
    let pos1 := (node.id, x, y + (myHeight - node.height) / 2) :: pos
    (children.foldl
      (fun (acc : List (Nat × Rat × Rat) × Rat) child =>
        let pos2 := setPositions nodes sh fuel child (x + node.width + H_SPACE) acc.2 acc.1
        (pos2, acc.2 + ((amGet sh child.id).getD 0) + V_SPACE))
      (pos1, y)).1

/-- `roots` of `layoutTree` (part_000 line 130). -/
def layoutRoots (nodes : List Node) : List Node :=
  nodes.filter (fun n => n.parentId == none)

/-- The `subtreeHeights` map after `roots.forEach(calculateHeights)`
(part_000 line 131). -/
def layoutSubtreeHeights (nodes : List Node) : List (Nat × Rat) :=
  (layoutRoots nodes).foldl (fun acc r => calculateHeights nodes nodes.length r acc) []

/-- The `positionedNodes` map after the root loop (part_000 lines 133-137);
the accumulator pairs the map with `currentRootY`, which starts at 50 and
advances by the root subtree height plus twice the vertical gap. -/
def layoutPositions (nodes : List Node) : List (Nat × Rat × Rat) :=
  ((layoutRoots nodes).foldl
    (fun (acc : List (Nat × Rat × Rat) × Rat) root =>
      (setPositions nodes (layoutSubtreeHeights nodes) nodes.length root 50 acc.2 acc.1,
       acc.2 + ((amGet (layoutSubtreeHeights nodes) root.id).getD 0) + V_SPACE * 2))
    ([], 50)).1

/-- `layoutTree` (part_000 lines 88-143): positioned nodes inherit the computed
(x, y); nodes the traversal never reached are returned unchanged. -/
def layoutTree (nodes : List Node) : List Node :=
  if nodes.isEmpty then []
  else
    nodes.map (fun node =>
      match amGet (layoutPositions nodes) node.id with
      | some p => { node with x := p.1, y := p.2 }
      | none => node)

/-! ## The `layoutTree` of src/index-1.tsx (lines 71-126)

src/index-1.tsx contains its own copy of the layout algorithm.  It is embedded
independently here, translated from that file, for the equivalence claim. -/

namespace V1

/-- `childrenMap.get(id)` of the index-1.tsx `layoutTree` (lines 75-81). -/
def childrenOf (nodes : List Node) (id : Nat) : List Node :=
  nodes.filter (fun n => n.parentId == some id)

/-- `calculateHeights` of index-1.tsx (lines 86-98). -/
def calculateHeights (nodes : List Node) : Nat → Node → List (Nat × Rat) → List (Nat × Rat)
  | 0, _, sh => sh
  | fuel + 1, node, sh =>
    let children := V1.childrenOf nodes node.id
    if children.isEmpty then
      (node.id, node.height) :: sh
    else
      let sh1 := children.foldl (fun acc c => V1.calculateHeights nodes fuel c acc) sh
      let childrenHeight := children.foldl (fun acc c => acc + ((amGet sh1 c.id).getD 0)) 0
      let totalHeight := childrenHeight + ((children.length - 1 : Nat) : Rat) * V_SPACE
      (node.id, max totalHeight node.height) :: sh1

/-- `setPositions` of index-1.tsx (lines 100-111). -/
def setPositions (nodes : List Node) (sh : List (Nat × Rat)) :
    Nat → Node → Rat → Rat → List (Nat × Rat × Rat) → List (Nat × Rat × Rat)
  | 0, _, _, _, pos => pos
  | fuel + 1, node, x, y, pos =>
    let myHeight := (amGet sh node.id).getD 0
    let children := V1.childrenOf nodes node.id
    let pos1 := (node.id, x, y + (myHeight - node.height) / 2) :: pos
    (children.foldl
      (fun (acc : List (Nat × Rat × Rat) × Rat) child =>
        let pos2 := V1.setPositions nodes sh fuel child (x + node.width + H_SPACE) acc.2 acc.1
        (pos2, acc.2 + ((amGet sh child.id).getD 0) + V_SPACE))
      (pos1, y)).1

/-- `roots` of index-1.tsx `layoutTree` (line 113). -/
def layoutRoots (nodes : List Node) : List Node :=
  nodes.filter (fun n => n.parentId == none)

/-- The `subtreeHeights` map of index-1.tsx (line 114). -/
def layoutSubtreeHeights (nodes : List Node) : List (Nat × Rat) :=
  (V1.layoutRoots nodes).foldl (fun acc r => V1.calculateHeights nodes nodes.length r acc) []

/-- The `positionedNodes` map of index-1.tsx (lines 116-120). -/
def layoutPositions (nodes : List Node) : List (Nat × Rat × Rat) :=
  ((V1.layoutRoots nodes).foldl
    (fun (acc : List (Nat × Rat × Rat) × Rat) root =>
      (V1.setPositions nodes (V1.layoutSubtreeHeights nodes) nodes.length root 50 acc.2 acc.1,
       acc.2 + ((amGet (V1.layoutSubtreeHeights nodes) root.id).getD 0) + V_SPACE * 2))
    ([], 50)).1

/-- `layoutTree` of index-1.tsx (lines 71-126). -/
def layoutTree (nodes : List Node) : List Node :=
  if nodes.isEmpty then []
  else
    nodes.map (fun node =>
      match amGet (V1.layoutPositions nodes) node.id with
      | some p => { node with x := p.1, y := p.2 }
      | none => node)

end V1

/-! ## Height derivation (part_000 lines 1329-1337) -/

/-- `calculateNodeHeight`: base height, one row per subtask, the unified
owners/tags metadata row, and an extra row when any links are attached. -/
def calculateNodeHeight (node : Node) : Rat :=
  let h := BASE_NODE_HEIGHT
  let h := h + (node.subtasks.length : Rat) * SUBTASK_HEIGHT
  let h := h + METADATA_ROW_HEIGHT
  if node.links.length > 0 then h + LINK_ROW_EXTRA_HEIGHT else h

/-! ## Visibility filter (part_000 lines 1339-1408)

`displayedNodes` is a `useMemo` body; its inputs (`searchQuery`,
`priorityFilter`, `filterByNodeId`, `filterByMeetingId`, `nodes`, `owners`)
become parameters.  The DOM text extraction used for notes
(`tempDiv.innerHTML = node.notes; tempDiv.textContent`) is environment
behaviour and becomes the parameter `extractText`.  JS truthiness is kept:
`0` ids and the empty search string are falsy. -/

/-- `new Map(list.map(x => [x.id, x])).get(k)`: with duplicate ids the last
entry wins, hence the search over the reversed list. -/
def jsMapGet {α : Type} (key : α → Nat) (l : List α) (k : Nat) : Option α :=
  l.reverse.find? (fun a => key a == k)

/-- One step of the parent-chain walks
(`current = current.parentId ? nodesById.get(current.parentId) : undefined`):
a `parentId` of `0` is falsy and stops the walk, as does a missing parent. -/
def parentStep (l : List Node) (n : Node) : Option Node :=
  match n.parentId with
  | some p => if p == 0 then none else jsMapGet Node.id l p
  | none => none

/-- The `while` loop of `addNodeAndAncestors` (part_000 lines 1349-1356):
walk up the parent chain, adding each id, stopping at an already-visited id.
Each recursive call adds a previously unvisited id, so fuel
`l.length + 1` never runs out. -/
def addWalk (l : List Node) : Nat → List Nat → Option Node → List Nat
  | 0, vis, _ => vis
  | _ + 1, vis, none => vis
  | fuel + 1, vis, some cur =>
    if cur.id ∈ vis then vis
    else addWalk l fuel (cur.id :: vis) (parentStep l cur)

/-- The `while` loop of `getAncestors` in focus mode (part_000 lines
1365-1371): like `addWalk` but with no visited check (the JS loop relies on
the forest being acyclic to terminate). -/
def ancWalk (l : List Node) : Nat → List Nat → Option Node → List Nat
  | 0, vis, _ => vis
  | _ + 1, vis, none => vis
  | fuel + 1, vis, some cur => ancWalk l fuel (cur.id :: vis) (parentStep l cur)

/-- `getDescendants` (part_000 lines 1372-1376): add the id, then recurse into
every node whose `parentId` equals it (strict equality, no truthiness). -/
def descWalk (l : List Node) : Nat → Nat → List Nat → List Nat
  | 0, _, vis => vis
  | fuel + 1, t, vis =>
    (l.filter (fun n => n.parentId == some t)).foldl
      (fun acc c => descWalk l fuel c.id acc) (t :: vis)

/-- The meeting-membership match (part_000 line 1360). -/
def meetingMatch (m : Nat) (n : Node) : Bool :=
  n.meetingIds.contains m

/-- The priority match (part_000 line 1382). -/
def priorityMatch (p : Nat) (n : Node) : Bool :=
  n.priority == p

/-- JS `String.prototype.includes`: contiguous substring containment. -/
def strIncludes (s sub : String) : Bool :=
  go sub.toList s.toList
where
  go (sub : List Char) : List Char → Bool
    | [] => sub.isEmpty
    | c :: rest => sub.isPrefixOf (c :: rest) || go sub rest

/-- The text-query match (part_000 lines 1387-1397): case-insensitive
substring match against text, extracted notes, tags, subtask texts and the
joined owner names. -/
def textMatch (extractText : String → String) (owners : List Owner) (q : String)
    (n : Node) : Bool :=
  let notesText := extractText n.notes
  let ownerNames :=
    (String.intercalate " "
      (n.ownerIds.map (fun i => ((jsMapGet Owner.id owners i).map Owner.name).getD ""))).toLower
  strIncludes n.text.toLower q || strIncludes notesText.toLower q ||
    n.tags.any (fun t => strIncludes t.toLower q) ||
    n.subtasks.any (fun st => strIncludes st.text.toLower q) ||
    strIncludes ownerNames q

/-- `nodesWithHeights` (part_000 line 1340). -/
def nodesWithHeights (nodes : List Node) : List Node :=
  nodes.map (fun n => { n with height := calculateNodeHeight n })

/-- `visibleNodes` (part_000 lines 1343-1405): the collection the layout is
invoked on, after height derivation and the active filter. -/
def visibleNodes (extractText : String → String) (owners : List Owner)
    (searchQuery : String) (priorityFilter filterByNodeId filterByMeetingId : Option Nat)
    (nodes : List Node) : List Node :=
  let L := nodesWithHeights nodes
  let activeFilter := searchQuery.trim.toLower
  let isPriorityFilterActive := priorityFilter.getD 0 != 0
  let truthyMeeting := filterByMeetingId.getD 0 != 0
  let truthyNode := filterByNodeId.getD 0 != 0
  if truthyMeeting || truthyNode || isPriorityFilterActive || (activeFilter != "") then
    let visibleIds :=
      if truthyMeeting then
        L.foldl
          (fun vis n =>
            if meetingMatch (filterByMeetingId.getD 0) n then
              addWalk L (L.length + 1) vis (jsMapGet Node.id L n.id)
            else vis) []
      else if truthyNode then
        let f := filterByNodeId.getD 0
        descWalk L (L.length + 1) f (ancWalk L (L.length + 1) [] (jsMapGet Node.id L f))
      else if isPriorityFilterActive then
        L.foldl
          (fun vis n =>
            if priorityMatch (priorityFilter.getD 0) n then
              addWalk L (L.length + 1) vis (jsMapGet Node.id L n.id)
            else vis) []
      else
        L.foldl
          (fun vis n =>
            if textMatch extractText owners activeFilter n then
              addWalk L (L.length + 1) vis (jsMapGet Node.id L n.id)
            else vis) []
    L.filter (fun n => visibleIds.contains n.id)
  else L

/-- `displayedNodes` (part_000 line 1407): the filtered collection, laid out. -/
def displayedNodes (extractText : String → String) (owners : List Owner)
    (searchQuery : String) (priorityFilter filterByNodeId filterByMeetingId : Option Nat)
    (nodes : List Node) : List Node :=
  layoutTree
    (visibleNodes extractText owners searchQuery priorityFilter filterByNodeId
      filterByMeetingId nodes)

/-! ## Well-formedness of a forest

A forest input is well formed when ids are unique and the parent edges are
acyclic.  Acyclicity is witnessed by a rank function on ids that strictly
decreases from parent to child (for a finite graph such a function exists
exactly when there is no cycle); bounding the rank by the collection size
makes the recursion depth of every pass at most `nodes.length`, so the fuel at
the call sites is never exhausted. -/

def UniqueIds (nodes : List Node) : Prop :=
  nodes.Pairwise (fun a b => a.id ≠ b.id)

def RankOk (rank : Nat → Nat) (nodes : List Node) : Prop :=
  ∀ p ∈ nodes, ∀ c ∈ nodes, c.parentId = some p.id → rank c.id < rank p.id

def RankBounded (rank : Nat → Nat) (nodes : List Node) : Prop :=
  ∀ n ∈ nodes, rank n.id < nodes.length

def ParentsResolve (nodes : List Node) : Prop :=
  ∀ n ∈ nodes, ∀ pid, n.parentId = some pid → ∃ p ∈ nodes, p.id = pid

def PositiveHeights (nodes : List Node) : Prop :=
  ∀ n ∈ nodes, 0 < n.height

def NonzeroIds (nodes : List Node) : Prop :=
  ∀ n ∈ nodes, n.id ≠ 0

/-- First node carrying a given id (under `UniqueIds` it is the only one). -/
def findNode (nodes : List Node) (t : Nat) : Option Node :=
  nodes.find? (fun n => n.id == t)

/-- One parent-to-child edge of the forest: `b` is a child of `a`. -/
def childStep (nodes : List Node) (a b : Node) : Prop :=
  b ∈ nodes ∧ b.parentId = some a.id

/-- `Descend nodes a b`: `b` lies in the subtree rooted at `a` (including
`a` itself). -/
def Descend (nodes : List Node) : Node → Node → Prop :=
  Relation.ReflTransGen (childStep nodes)

/-- One upward step between ids: the node with id `t` has a parent with id `u`
present in the collection. -/
def stepUpId (l : List Node) (t u : Nat) : Prop :=
  ∃ n, n ∈ l ∧ n.id = t ∧ n.parentId = some u ∧ ∃ m, m ∈ l ∧ m.id = u

/-- `AncestorId l t u`: following `parentId` links upward through nodes present
in `l`, the id `u` is an ancestor of (or equal to) the id `t`. -/
def AncestorId (l : List Node) : Nat → Nat → Prop :=
  Relation.ReflTransGen (stepUpId l)

/-! ## Denotational description of the layout

These functions give a direct, stateless description of what the two layout
passes compute for each node; the correctness theorems below prove that the
state-passing passes agree with them on well-formed forests. -/

/-- Specification of the subtree height of a node. -/
def shOf (nodes : List Node) : Nat → Node → Rat
  | 0, _ => 0
  | fuel + 1, n =>
    let cs := childrenOf nodes n.id
    if cs.isEmpty then n.height
    else
      max ((cs.foldl (fun a c => a + shOf nodes fuel c) 0) +
        ((cs.length - 1 : Nat) : Rat) * V_SPACE) n.height

/-- Subtree height of the node carrying id `t`. -/
def shOfAt (nodes : List Node) (t : Nat) : Rat :=
  match findNode nodes t with
  | some m => shOf nodes nodes.length m
  | none => 0

/-- Specification of the x coordinate: 50 at a root, parent's x plus parent's
width plus the horizontal gap otherwise. -/
def specX (nodes : List Node) : Nat → Node → Rat
  | 0, _ => 50
  | fuel + 1, n =>
    match n.parentId with
    | none => 50
    | some pid =>
      match findNode nodes pid with
      | none => 50
      | some p => specX nodes fuel p + p.width + H_SPACE

/-- Band origin of a root: 50 plus the bands of all earlier roots, each
advancing by its subtree height plus twice the vertical gap. -/
def rootBand (nodes : List Node) (n : Node) : Rat :=
  50 + ((layoutRoots nodes).takeWhile (fun r => r.id != n.id)).foldl
    (fun a r => a + shOfAt nodes r.id + V_SPACE * 2) 0

/-- Offset of a child's band inside its parent's band: the subtree heights of
the earlier siblings, each followed by the vertical gap. -/
def siblingOffset (nodes : List Node) (p : Node) (n : Node) : Rat :=
  ((childrenOf nodes p.id).takeWhile (fun c => c.id != n.id)).foldl
    (fun a c => a + shOfAt nodes c.id + V_SPACE) 0

/-- Specification of the band origin (the `y` argument `setPositions` receives
for the node): children bands start at the parent's band origin and are
stacked by `siblingOffset`. -/
def specBand (nodes : List Node) : Nat → Node → Rat
  | 0, n => rootBand nodes n
  | fuel + 1, n =>
    match n.parentId with
    | none => rootBand nodes n
    | some pid =>
      match findNode nodes pid with
      | none => rootBand nodes n
      | some p => specBand nodes fuel p + siblingOffset nodes p n

/-- Specification of the x coordinate of the node with id `t`. -/
def specXAt (nodes : List Node) (t : Nat) : Rat :=
  match findNode nodes t with
  | some m => specX nodes nodes.length m
  | none => 0

/-- Specification of the final y coordinate of the node with id `t`: the band
origin plus the centering offset `(subtree height - own height) / 2`. -/
def specYAt (nodes : List Node) (t : Nat) : Rat :=
  match findNode nodes t with
  | some m => specBand nodes nodes.length m + (shOf nodes nodes.length m - m.height) / 2
  | none => 0

/-- Skeleton agreement: the fields of the two nodes the layout reads agree
(everything except the carried x/y and the content payload). -/
def SkelEq (a b : Node) : Prop :=
  a.id = b.id ∧ a.parentId = b.parentId ∧ a.width = b.width ∧ a.height = b.height

/-- The guard-plus-match condition of the three ancestor-closing filter
branches of `displayedNodes` (meeting, priority, text), mirroring the
truthiness tests that select the branch. -/
def filterMatches (extractText : String → String) (owners : List Owner)
    (searchQuery : String) (priorityFilter filterByNodeId filterByMeetingId : Option Nat)
    (n : Node) : Prop :=
  (filterByMeetingId.getD 0 ≠ 0 ∧ meetingMatch (filterByMeetingId.getD 0) n = true) ∨
  (filterByMeetingId.getD 0 = 0 ∧ filterByNodeId.getD 0 = 0 ∧
    priorityFilter.getD 0 ≠ 0 ∧ priorityMatch (priorityFilter.getD 0) n = true) ∨
  (filterByMeetingId.getD 0 = 0 ∧ filterByNodeId.getD 0 = 0 ∧ priorityFilter.getD 0 = 0 ∧
    searchQuery.trim.toLower ≠ "" ∧
    textMatch extractText owners searchQuery.trim.toLower n = true)

/-- A set of ids closed under following one parent step upward: used to show
the filter walks collect every ancestor of a matched node. -/
def ClosedUp (l : List Node) (s : List Nat) : Prop :=
  ∀ t ∈ s, ∀ u, stepUpId l t u → u ∈ s

/-! ## Concrete inputs for the scenario claim, witnesses and counterexamples -/

/-- A content-free node with the given id, parent, width and height. -/
def mkNode (id : Nat) (pid : Option Nat) (w h : Rat) : Node :=
  { id := id, text := "", x := 0, y := 0, width := w, height := h, parentId := pid,
    links := [], notes := "", subtasks := [], tags := [], ownerIds := [], priority := 0,
    meetingIds := [], isEditing := false }

/-- The spec's scenario forest: A(id 1, root, h 60), B(id 2, parent 1, h 60),
C(id 3, parent 1, h 100); the scenario leaves the widths open, so they are
parameters. -/
def exScenarioW (wa wb wc : Rat) : List Node :=
  [mkNode 1 none wa 60, mkNode 2 (some 1) wb 60, mkNode 3 (some 1) wc 100]

/-- A rank function witnessing that the scenario forest is acyclic. -/
def exScenarioRank : Nat → Nat :=
  fun t => if t = 1 then 2 else 1

/-- A node whose `parentId` points at the absent id 99 and that carries the
input position (7, 9). -/
def orphanNode : Node :=
  { mkNode 1 (some 99) 220 60 with x := 7, y := 9 }

/-- The same node as `orphanNode` but with no parent. -/
def orphanAsRoot : Node :=
  { orphanNode with parentId := none }

/-- The same node as `orphanNode` but carrying the input position (8, 9). -/
def orphanNode8 : Node :=
  { orphanNode with x := 8 }

/-- A root plus a node whose parent id 99 is absent. -/
def exOrphanPair : List Node :=
  [mkNode 1 none 220 60, { mkNode 2 (some 99) 220 60 with x := 7, y := 9 }]

/-- Two skeleton-equal single-root collections differing in payload and in the
carried input position. -/
def exDetA : List Node :=
  [{ mkNode 1 none 220 60 with x := 7, text := "a" }]

/-- Companion of `exDetA` with different carried x and text. -/
def exDetB : List Node :=
  [{ mkNode 1 none 220 60 with x := 8, text := "b" }]

/-- Root P (id 1) with child Q (id 2) of priority 2; used for the
ancestor-closure witness with an active priority filter. -/
def exPrio : List Node :=
  [mkNode 1 none 220 60, { mkNode 2 (some 1) 220 60 with priority := 2 }]

/-- Node id 0 as parent of a priority-1 node: the ancestor walk stops at the
falsy `parentId` 0, so the present parent is dropped from the output. -/
def exZeroPrio : List Node :=
  [mkNode 0 none 220 60, { mkNode 7 (some 0) 220 60 with priority := 1 }]

/-- Node id 0 as parent of the focus node 7: the focus-mode ancestor walk also
stops at the falsy `parentId` 0. -/
def exZeroFocus : List Node :=
  [mkNode 0 none 220 60, mkNode 7 (some 0) 220 60]

/-- A chain 1 ← 2 ← 3 plus an unrelated root 4; used for the focus-filter
witness with focus node 2. -/
def exChain : List Node :=
  [mkNode 1 none 220 60, mkNode 2 (some 1) 220 60, mkNode 3 (some 2) 220 60,
   mkNode 4 none 220 60]

/-- A rank function witnessing that `exChain` is acyclic. -/
def exChainRank : Nat → Nat :=
  fun t => match t with
  | 1 => 3
  | 2 => 2
  | 3 => 1
  | _ => 0

/-- A single node whose parent id 5 is absent: focusing on the deleted id 5
still shows this dangling child. -/
def exStale : List Node :=
  [mkNode 2 (some 5) 220 60]

/-! ## Basic helper lemmas -/

theorem foldl_congr_mem {α β : Type _} {l : List α} {f g : β → α → β}
    (h : ∀ b x, x ∈ l → f b x = g b x) : ∀ a, l.foldl f a = l.foldl g a := by
  induction l with
  | nil => intro a; rfl
  | cons hd tl ih =>
    intro a
    simp only [List.foldl_cons]
    rw [h a hd (by simp)]
    exact ih (fun b x hx => h b x (List.mem_cons_of_mem _ hx)) _

theorem amGet_nil {α : Type} (t : Nat) : amGet ([] : List (Nat × α)) t = none := rfl

theorem amGet_cons {α : Type} (k : Nat) (v : α) (m : List (Nat × α)) (t : Nat) :
    amGet ((k, v) :: m) t = if k = t then some v else amGet m t := by
  by_cases h : k = t
  · subst h
    simp [amGet, List.find?_cons_of_pos]
  · have hb : ((k, v).1 == t) = false := by simpa using h
    simp [amGet, List.find?_cons_of_neg, hb, h]

theorem amGet_cons_isSome {α : Type} {m : List (Nat × α)} {t : Nat} (k : Nat) (v : α)
    (h : (amGet m t).isSome) : (amGet ((k, v) :: m) t).isSome := by
  rw [amGet_cons]
  split <;> simp [h]

theorem find?_key_unique {α : Type _} {key : α → Nat} {k : Nat} :
    ∀ {l : List α}, l.Pairwise (fun a b => key a ≠ key b) → ∀ {n}, n ∈ l → key n = k →
      l.find? (fun a => key a == k) = some n := by
  intro l
  induction l with
  | nil => intro _ n hn; exact absurd hn (List.not_mem_nil n)
  | cons hd tl ih =>
    intro hp n hn hk
    rcases List.pairwise_cons.mp hp with ⟨hhd, htl⟩
    rcases List.mem_cons.mp hn with h | h
    · subst h
      exact List.find?_cons_of_pos _ (by simpa using hk)
    · have : key hd ≠ k := fun he => hhd n h (he.trans hk.symm)
      rw [List.find?_cons_of_neg _ (by simpa using this)]
      exact ih htl h hk

theorem findNode_eq_of_mem {nodes : List Node} (hu : UniqueIds nodes) {n : Node} {t : Nat}
    (hm : n ∈ nodes) (ht : n.id = t) : findNode nodes t = some n :=
  find?_key_unique hu hm ht

theorem findNode_mem {nodes : List Node} {t : Nat} {m : Node}
    (h : findNode nodes t = some m) : m ∈ nodes ∧ m.id = t := by
  refine ⟨List.mem_of_find?_eq_some h, ?_⟩
  have := List.find?_some h
  simpa using this

theorem mem_id_inj {nodes : List Node} (hu : UniqueIds nodes) {a b : Node}
    (ha : a ∈ nodes) (hb : b ∈ nodes) (h : a.id = b.id) : a = b := by
  by_contra hne
  rcases List.append_of_mem ha with ⟨l1, l2, rfl⟩
  have hu' : (l1 ++ a :: l2).Pairwise (fun a b => a.id ≠ b.id) := hu
  have hsplit := List.pairwise_append.mp hu'
  rcases List.mem_append.mp hb with hb1 | hb2
  · exact hsplit.2.2 b hb1 a (List.mem_cons_self a l2) h.symm
  · rcases List.mem_cons.mp hb2 with rfl | hb3
    · exact hne rfl
    · exact (List.pairwise_cons.mp hsplit.2.1).1 b hb3 h

theorem jsMapGet_mem {α : Type} {key : α → Nat} {l : List α} {k : Nat} {a : α}
    (h : jsMapGet key l k = some a) : a ∈ l ∧ key a = k := by
  refine ⟨List.mem_reverse.mp (List.mem_of_find?_eq_some h), ?_⟩
  have := List.find?_some h
  simpa using this

theorem jsMapGet_eq_of_mem {nodes : List Node} (hu : UniqueIds nodes) {n : Node} {t : Nat}
    (hm : n ∈ nodes) (ht : n.id = t) : jsMapGet Node.id nodes t = some n := by
  unfold jsMapGet
  refine find?_key_unique ?_ (List.mem_reverse.mpr hm) ht
  rw [List.pairwise_reverse]
  exact hu.imp (fun h => Ne.symm h)

theorem mem_childrenOf {nodes : List Node} {t : Nat} {c : Node} :
    c ∈ childrenOf nodes t ↔ c ∈ nodes ∧ c.parentId = some t := by
  unfold childrenOf
  rw [List.mem_filter]
  constructor
  · rintro ⟨h1, h2⟩
    exact ⟨h1, by simpa using h2⟩
  · rintro ⟨h1, h2⟩
    exact ⟨h1, by simpa using h2⟩

theorem childrenOf_sublist (nodes : List Node) (t : Nat) :
    (childrenOf nodes t).Sublist nodes :=
  List.filter_sublist nodes

theorem takeWhile_append_split {α : Type _} {p : α → Bool} {c : α} {post : List α} :
    ∀ {pre : List α}, (∀ x ∈ pre, p x = true) → p c = false →
      (pre ++ c :: post).takeWhile p = pre := by
  intro pre
  induction pre with
  | nil => intro _ hc; simp [List.takeWhile_cons, hc]
  | cons hd tl ih =>
    intro hpre hc
    have hhd : p hd = true := hpre hd (by simp)
    simp [List.takeWhile_cons, hhd,
      ih (fun x hx => hpre x (List.mem_cons_of_mem _ hx)) hc]

theorem foldl_add_eq {α : Type _} (f : α → Rat) :
    ∀ (l : List α) (a : Rat), l.foldl (fun x c => x + f c) a = a + (l.map f).sum := by
  intro l
  induction l with
  | nil => intro a; simp
  | cons hd tl ih =>
    intro a
    simp only [List.foldl_cons, List.map_cons, List.sum_cons, ih]
    ring

/-! ## C8: the derived node height -/

/-- C8.  For every node, the derived height fed to layout equals the base
height 60, plus 28 per subtask, plus the fixed metadata-row height 40, plus an
extra 35 exactly when the node has at least one link attached (of any type):
`nodesWithHeights` replaces each height by `calculateNodeHeight`, which
computes exactly this formula. -/
theorem calculateNodeHeight_formula (n : Node) :
    calculateNodeHeight n =
      60 + (n.subtasks.length : Rat) * 28 + 40 + (if n.links.isEmpty then 0 else 35) := by
  cases hl : n.links with
  | nil =>
    simp [calculateNodeHeight, BASE_NODE_HEIGHT, SUBTASK_HEIGHT, METADATA_ROW_HEIGHT, hl]
  | cons a l =>
    simp [calculateNodeHeight, BASE_NODE_HEIGHT, SUBTASK_HEIGHT, METADATA_ROW_HEIGHT,
      LINK_ROW_EXTRA_HEIGHT, hl]

/-! ## C10: the two copies of the layout algorithm agree -/

theorem v1_calculateHeights_eq (nodes : List Node) :
    ∀ fuel n sh, V1.calculateHeights nodes fuel n sh = calculateHeights nodes fuel n sh := by
  intro fuel
  induction fuel with
  | zero => intro n sh; rfl
  | succ fuel ih =>
    intro n sh
    show V1.calculateHeights nodes (fuel + 1) n sh = calculateHeights nodes (fuel + 1) n sh
    simp only [V1.calculateHeights, calculateHeights]
    have hch : V1.childrenOf = childrenOf := rfl
    rw [hch]
    rw [foldl_congr_mem (f := fun acc c => V1.calculateHeights nodes fuel c acc)
      (g := fun acc c => calculateHeights nodes fuel c acc) (fun b x _ => ih x b) sh]

theorem v1_setPositions_eq (nodes : List Node) (sh : List (Nat × Rat)) :
    ∀ fuel n x y pos, V1.setPositions nodes sh fuel n x y pos = setPositions nodes sh fuel n x y pos := by
  intro fuel
  induction fuel with
  | zero => intro n x y pos; rfl
  | succ fuel ih =>
    intro n x y pos
    show V1.setPositions nodes sh (fuel + 1) n x y pos = setPositions nodes sh (fuel + 1) n x y pos
    simp only [V1.setPositions, setPositions]
    have hch : V1.childrenOf = childrenOf := rfl
    rw [hch]
    have h := foldl_congr_mem
      (l := childrenOf nodes n.id)
      (f := fun (acc : List (Nat × Rat × Rat) × Rat) child =>
        (V1.setPositions nodes sh fuel child (x + n.width + H_SPACE) acc.2 acc.1,
         acc.2 + ((amGet sh child.id).getD 0) + V_SPACE))
      (g := fun (acc : List (Nat × Rat × Rat) × Rat) child =>
        (setPositions nodes sh fuel child (x + n.width + H_SPACE) acc.2 acc.1,
         acc.2 + ((amGet sh child.id).getD 0) + V_SPACE))
      (fun b c _ => by simp only [ih])
      ((n.id, x, y + ((amGet sh n.id).getD 0 - n.height) / 2) :: pos, y)
    rw [h]

/-- C10.  The `layoutTree` of src/index-1.tsx and the `layoutTree` of
src/unnamed/part_000 denote the same function: on every input collection they
produce the same output list (same positions, same order). -/
theorem layoutTree_index1_equiv : ∀ nodes : List Node, V1.layoutTree nodes = layoutTree nodes := by
  intro nodes
  have hroots : V1.layoutRoots = layoutRoots := rfl
  have hsh : V1.layoutSubtreeHeights nodes = layoutSubtreeHeights nodes := by
    unfold V1.layoutSubtreeHeights layoutSubtreeHeights
    rw [hroots]
    exact foldl_congr_mem (fun b x _ => v1_calculateHeights_eq nodes nodes.length x b) _
  have hpos : V1.layoutPositions nodes = layoutPositions nodes := by
    unfold V1.layoutPositions layoutPositions
    rw [hroots]
    have := foldl_congr_mem
      (l := layoutRoots nodes)
      (f := fun (acc : List (Nat × Rat × Rat) × Rat) root =>
        (V1.setPositions nodes (V1.layoutSubtreeHeights nodes) nodes.length root 50 acc.2 acc.1,
         acc.2 + ((amGet (V1.layoutSubtreeHeights nodes) root.id).getD 0) + V_SPACE * 2))
      (g := fun (acc : List (Nat × Rat × Rat) × Rat) root =>
        (setPositions nodes (layoutSubtreeHeights nodes) nodes.length root 50 acc.2 acc.1,
         acc.2 + ((amGet (layoutSubtreeHeights nodes) root.id).getD 0) + V_SPACE * 2))
      (fun b x _ => by simp only [hsh, v1_setPositions_eq]) (([], 50) : List (Nat × Rat × Rat) × Rat)
    rw [this]
  unfold V1.layoutTree layoutTree
  rw [hpos]

/-! ## Evaluation of the scenario forest -/

theorem mkNode_id (i : Nat) (p : Option Nat) (w h : Rat) : (mkNode i p w h).id = i := rfl

theorem mkNode_parentId (i : Nat) (p : Option Nat) (w h : Rat) : (mkNode i p w h).parentId = p := rfl

theorem mkNode_width (i : Nat) (p : Option Nat) (w h : Rat) : (mkNode i p w h).width = w := rfl

theorem mkNode_height (i : Nat) (p : Option Nat) (w h : Rat) : (mkNode i p w h).height = h := rfl

theorem exW_children1 (wa wb wc : Rat) :
    childrenOf (exScenarioW wa wb wc) 1 = [mkNode 2 (some 1) wb 60, mkNode 3 (some 1) wc 100] := by
  simp [childrenOf, exScenarioW, mkNode, List.filter]

theorem exW_children2 (wa wb wc : Rat) : childrenOf (exScenarioW wa wb wc) 2 = [] := by
  simp [childrenOf, exScenarioW, mkNode, List.filter]

theorem exW_children3 (wa wb wc : Rat) : childrenOf (exScenarioW wa wb wc) 3 = [] := by
  simp [childrenOf, exScenarioW, mkNode, List.filter]

theorem exW_roots (wa wb wc : Rat) :
    layoutRoots (exScenarioW wa wb wc) = [mkNode 1 none wa 60] := by
  simp [layoutRoots, exScenarioW, mkNode, List.filter]

theorem exW_sh (wa wb wc : Rat) :
    layoutSubtreeHeights (exScenarioW wa wb wc) = [(1, 180), (3, 100), (2, 60)] := by
  have hlen : (exScenarioW wa wb wc).length = 3 := by simp [exScenarioW]
  rw [layoutSubtreeHeights, exW_roots, hlen]
  rw [List.foldl_cons, List.foldl_nil]
  norm_num [calculateHeights, exW_children1, exW_children2, exW_children3,
    mkNode_id, mkNode_parentId, mkNode_height, amGet_cons, V_SPACE]

theorem exW_pos (wa wb wc : Rat) :
    layoutPositions (exScenarioW wa wb wc) =
      [(3, 50 + wa + 120, 130), (2, 50 + wa + 120, 50), (1, 50, 110)] := by
  have hlen : (exScenarioW wa wb wc).length = 3 := by simp [exScenarioW]
  rw [layoutPositions, exW_sh, exW_roots, hlen]
  rw [List.foldl_cons, List.foldl_nil]
  norm_num [setPositions, exW_children1, exW_children2, exW_children3,
    mkNode_id, mkNode_parentId, mkNode_height, mkNode_width, amGet_cons, V_SPACE, H_SPACE]

theorem exW_layout (wa wb wc : Rat) :
    (layoutTree (exScenarioW wa wb wc)).map (fun n => (n.id, n.x, n.y)) =
      [(1, 50, 110), (2, 50 + wa + 120, 50), (3, 50 + wa + 120, 130)] := by
  rw [layoutTree, if_neg (by simp [exScenarioW] : ¬(exScenarioW wa wb wc).isEmpty = true)]
  rw [exW_pos]
  simp [exScenarioW, mkNode, amGet_cons]

/-- C3.  On the scenario forest A(id 1, root, h 60), B(id 2, parent 1, h 60),
C(id 3, parent 1, h 100) — for any node widths — the layout pass computes
subtree heights 60 for B, 100 for C and 180 for A, and with the root band
starting at rootY = 50 assigns A.y = rootY + 60, B.y = rootY, C.y = rootY + 80,
A.x = 50, and B.x = C.x = A.x + A.width + 120. -/
theorem layoutTree_scenario (wa wb wc : Rat) :
    amGet (layoutSubtreeHeights (exScenarioW wa wb wc)) 2 = some 60 ∧
    amGet (layoutSubtreeHeights (exScenarioW wa wb wc)) 3 = some 100 ∧
    amGet (layoutSubtreeHeights (exScenarioW wa wb wc)) 1 = some 180 ∧
    (layoutTree (exScenarioW wa wb wc)).map (fun n => (n.id, n.x, n.y)) =
      [(1, 50, 50 + 60), (2, 50 + wa + 120, 50), (3, 50 + wa + 120, 50 + 80)] := by
  refine ⟨?_, ?_, ?_, ?_⟩
  · rw [exW_sh]; norm_num [amGet_cons]
  · rw [exW_sh]; norm_num [amGet_cons]
  · rw [exW_sh]; norm_num [amGet_cons]
  · rw [exW_layout]; norm_num

/-! ## Evaluation lemmas for counterexample inputs -/

theorem orphan_layout :
    (layoutTree [orphanNode]).map (fun n => (n.id, n.x, n.y)) = [(1, 7, 9)] := by
  norm_num +decide [layoutTree, layoutPositions, layoutRoots, layoutSubtreeHeights,
    orphanNode, mkNode, amGet, List.filter, List.foldl]

theorem orphanAsRoot_layout :
    (layoutTree [orphanAsRoot]).map (fun n => (n.id, n.x, n.y)) = [(1, 50, 50)] := by
  norm_num +decide [layoutTree, layoutPositions, layoutRoots, layoutSubtreeHeights,
    calculateHeights, setPositions, childrenOf, orphanAsRoot, orphanNode, mkNode, amGet,
    List.filter, List.foldl, List.find?_cons_of_pos, List.find?_cons_of_neg, V_SPACE, H_SPACE]

theorem orphan8_layout :
    (layoutTree [orphanNode8]).map (fun n => (n.id, n.x, n.y)) = [(1, 8, 9)] := by
  norm_num +decide [layoutTree, layoutPositions, layoutRoots, layoutSubtreeHeights,
    orphanNode8, orphanNode, mkNode, amGet, List.filter, List.foldl]

theorem zeroPrio_displayed :
    (displayedNodes (fun s => s) [] "" (some 1) none none exZeroPrio).map (fun n => n.id) = [7] := by
  norm_num +decide [displayedNodes, visibleNodes, nodesWithHeights, calculateNodeHeight,
    priorityMatch, addWalk, parentStep, jsMapGet, exZeroPrio, mkNode,
    BASE_NODE_HEIGHT, SUBTASK_HEIGHT, METADATA_ROW_HEIGHT,
    layoutTree, layoutPositions, layoutRoots, layoutSubtreeHeights, calculateHeights,
    setPositions, childrenOf, amGet, List.filter, List.foldl,
    List.find?_cons_of_pos, List.find?_cons_of_neg, V_SPACE, H_SPACE]

theorem zeroFocus_displayed :
    (displayedNodes (fun s => s) [] "" none (some 7) none exZeroFocus).map (fun n => n.id) = [7] := by
  norm_num +decide [displayedNodes, visibleNodes, nodesWithHeights, calculateNodeHeight,
    ancWalk, descWalk, parentStep, jsMapGet, exZeroFocus, mkNode,
    BASE_NODE_HEIGHT, SUBTASK_HEIGHT, METADATA_ROW_HEIGHT,
    layoutTree, layoutPositions, layoutRoots, layoutSubtreeHeights, calculateHeights,
    setPositions, childrenOf, amGet, List.filter, List.foldl,
    List.find?_cons_of_pos, List.find?_cons_of_neg, V_SPACE, H_SPACE]

theorem stale_displayed :
    (displayedNodes (fun s => s) [] "" none (some 5) none exStale).map (fun n => n.id) = [2] := by
  norm_num +decide [displayedNodes, visibleNodes, nodesWithHeights, calculateNodeHeight,
    ancWalk, descWalk, parentStep, jsMapGet, exStale, mkNode,
    BASE_NODE_HEIGHT, SUBTASK_HEIGHT, METADATA_ROW_HEIGHT,
    layoutTree, layoutPositions, layoutRoots, layoutSubtreeHeights, calculateHeights,
    setPositions, childrenOf, amGet, List.filter, List.foldl,
    List.find?_cons_of_pos, List.find?_cons_of_neg, V_SPACE, H_SPACE]

/-! ## Counterexamples -/

/-- C4 counterexample.  The node `orphanNode` has `parentId` 99 while no node
with id 99 is present, and it enters the layout carrying position (7, 9).  The
layout leaves it at (7, 9), whereas the identical node with a null `parentId`
is placed at (50, 50): a dangling parent id is NOT laid out like a null one;
the node is left unpositioned. -/
theorem orphan_not_treated_as_root_cex :
    orphanNode.parentId = some 99 ∧ orphanAsRoot.parentId = none ∧
    (layoutTree [orphanNode]).map (fun n => (n.id, n.x, n.y)) = [(1, 7, 9)] ∧
    (layoutTree [orphanAsRoot]).map (fun n => (n.id, n.x, n.y)) = [(1, 50, 50)] :=
  ⟨rfl, rfl, orphan_layout, orphanAsRoot_layout⟩

/-- C5 counterexample.  `orphanNode` and `orphanNode8` agree on id, parentId,
width and height (and input order, being singletons) but carry input x = 7 and
x = 8; `layoutTree` outputs x = 7 and x = 8 for them, so the output positions
do depend on the x values the nodes carried on input. -/
theorem layout_prior_position_dependence_cex :
    SkelEq orphanNode orphanNode8 ∧
    (layoutTree [orphanNode]).map (fun n => (n.id, n.x, n.y)) = [(1, 7, 9)] ∧
    (layoutTree [orphanNode8]).map (fun n => (n.id, n.x, n.y)) = [(1, 8, 9)] :=
  ⟨⟨rfl, rfl, rfl, rfl⟩, orphan_layout, orphan8_layout⟩

/-- C6 counterexample.  In `exZeroPrio` the node with id 7 matches the active
priority-1 filter and its parent — the node with id 0 — is present in the
collection, yet the output is exactly [7]: the ancestor walk treats the falsy
`parentId` 0 as "no parent", so the present ancestor is dropped. -/
theorem ancestor_closure_zero_id_cex :
    filterMatches (fun s => s) [] "" (some 1) none none
      ({ mkNode 7 (some 0) 220 60 with priority := 1 }) ∧
    stepUpId exZeroPrio 7 0 ∧
    (displayedNodes (fun s => s) [] "" (some 1) none none exZeroPrio).map (fun n => n.id) = [7] :=
  ⟨Or.inr (Or.inl ⟨rfl, rfl, by decide, by decide⟩),
   ⟨{ mkNode 7 (some 0) 220 60 with priority := 1 }, by simp [exZeroPrio], rfl, rfl,
    ⟨mkNode 0 none 220 60, by simp [exZeroPrio], rfl⟩⟩,
   zeroPrio_displayed⟩

/-- C7 counterexample.  Focusing on node 7 of `exZeroFocus`, whose parent is
the present node with id 0, yields exactly [7]: the focus-mode ancestor walk
also stops at the falsy `parentId` 0, so the filtered output is not the full
ancestor chain plus subtree. -/
theorem focus_closure_zero_id_cex :
    stepUpId exZeroFocus 7 0 ∧
    (displayedNodes (fun s => s) [] "" none (some 7) none exZeroFocus).map (fun n => n.id) = [7] :=
  ⟨⟨mkNode 7 (some 0) 220 60, by simp [exZeroFocus], rfl, rfl,
    ⟨mkNode 0 none 220 60, by simp [exZeroFocus], rfl⟩⟩,
   zeroFocus_displayed⟩

/-- C9 counterexample.  The focus filter references id 5, which no node in
`exStale` carries, yet the output is the non-empty [2]: the descendant walk
still collects the dangling child whose `parentId` is the stale id. -/
theorem stale_focus_nonempty_cex :
    (List.map (fun n => n.id) exStale).contains 5 = false ∧
    (displayedNodes (fun s => s) [] "" none (some 5) none exStale).map (fun n => n.id) = [2] :=
  ⟨by decide, stale_displayed⟩

/-! ## Domain of the positions map -/

theorem setPositions_diff_descend (nodes : List Node) (sh : List (Nat × Rat)) :
    ∀ fuel n x y pos t,
      amGet (setPositions nodes sh fuel n x y pos) t ≠ amGet pos t →
      ∃ m, m.id = t ∧ Descend nodes n m := by
  intro fuel
  induction fuel with
  | zero => intro n x y pos t h; exact absurd rfl h
  | succ fuel ih =>
    intro n x y pos t h
    rw [setPositions] at h
    set pos1 := (n.id, x, y + ((amGet sh n.id).getD 0 - n.height) / 2) :: pos with hpos1
    -- fold lemma over the children list
    have fold_diff : ∀ (cs : List Node), (∀ c ∈ cs, c ∈ childrenOf nodes n.id) →
        ∀ (acc : List (Nat × Rat × Rat) × Rat),
        amGet ((cs.foldl
          (fun (acc : List (Nat × Rat × Rat) × Rat) child =>
            (setPositions nodes sh fuel child (x + n.width + H_SPACE) acc.2 acc.1,
             acc.2 + ((amGet sh child.id).getD 0) + V_SPACE)) acc).1) t ≠ amGet acc.1 t →
        ∃ c ∈ cs, ∃ m, m.id = t ∧ Descend nodes c m := by
      intro cs
      induction cs with
      | nil => intro _ acc hd; exact absurd rfl hd
      | cons c cs ihc =>
        intro hsub acc hd
        rw [List.foldl_cons] at hd
        by_cases hmid :
            amGet ((cs.foldl
              (fun (acc : List (Nat × Rat × Rat) × Rat) child =>
                (setPositions nodes sh fuel child (x + n.width + H_SPACE) acc.2 acc.1,
                 acc.2 + ((amGet sh child.id).getD 0) + V_SPACE))
              (setPositions nodes sh fuel c (x + n.width + H_SPACE) acc.2 acc.1,
               acc.2 + ((amGet sh c.id).getD 0) + V_SPACE)).1) t =
            amGet (setPositions nodes sh fuel c (x + n.width + H_SPACE) acc.2 acc.1) t
        · rw [hmid] at hd
          rcases ih c (x + n.width + H_SPACE) acc.2 acc.1 t hd with ⟨m, hm1, hm2⟩
          exact ⟨c, List.mem_cons_self c cs, m, hm1, hm2⟩
        · rcases ihc (fun c' hc' => hsub c' (List.mem_cons_of_mem _ hc')) _ hmid with
            ⟨c', hc', m, hm1, hm2⟩
          exact ⟨c', List.mem_cons_of_mem _ hc', m, hm1, hm2⟩
    by_cases hmid : amGet ((((childrenOf nodes n.id)).foldl
        (fun (acc : List (Nat × Rat × Rat) × Rat) child =>
          (setPositions nodes sh fuel child (x + n.width + H_SPACE) acc.2 acc.1,
           acc.2 + ((amGet sh child.id).getD 0) + V_SPACE)) (pos1, y)).1) t = amGet pos1 t
    · rw [hmid] at h
      rw [hpos1, amGet_cons] at h
      by_cases hid : n.id = t
      · exact ⟨n, hid, Relation.ReflTransGen.refl⟩
      · rw [if_neg hid] at h
        exact absurd rfl h
    · rcases fold_diff (childrenOf nodes n.id) (fun c hc => hc) (pos1, y) hmid with
        ⟨c, hc, m, hm1, hm2⟩
      have hcs : childStep nodes n c := (mem_childrenOf.mp hc).imp id (fun h' => h')
      exact ⟨m, hm1, Relation.ReflTransGen.head hcs hm2⟩

theorem layoutPositions_some_descend (nodes : List Node) (t : Nat)
    (h : amGet (layoutPositions nodes) t ≠ none) :
    ∃ r ∈ layoutRoots nodes, ∃ m, m.id = t ∧ Descend nodes r m := by
  rw [layoutPositions] at h
  have aux : ∀ (rs : List Node) (acc : List (Nat × Rat × Rat) × Rat),
      amGet ((rs.foldl
        (fun (acc : List (Nat × Rat × Rat) × Rat) root =>
          (setPositions nodes (layoutSubtreeHeights nodes) nodes.length root 50 acc.2 acc.1,
           acc.2 + ((amGet (layoutSubtreeHeights nodes) root.id).getD 0) + V_SPACE * 2)) acc).1) t ≠
        amGet acc.1 t →
      ∃ r ∈ rs, ∃ m, m.id = t ∧ Descend nodes r m := by
    intro rs
    induction rs with
    | nil => intro acc hd; exact absurd rfl hd
    | cons r rs ihr =>
      intro acc hd
      rw [List.foldl_cons] at hd
      by_cases hmid :
          amGet ((rs.foldl
            (fun (acc : List (Nat × Rat × Rat) × Rat) root =>
              (setPositions nodes (layoutSubtreeHeights nodes) nodes.length root 50 acc.2 acc.1,
               acc.2 + ((amGet (layoutSubtreeHeights nodes) root.id).getD 0) + V_SPACE * 2))
            (setPositions nodes (layoutSubtreeHeights nodes) nodes.length r 50 acc.2 acc.1,
             acc.2 + ((amGet (layoutSubtreeHeights nodes) r.id).getD 0) + V_SPACE * 2)).1) t =
          amGet (setPositions nodes (layoutSubtreeHeights nodes) nodes.length r 50 acc.2 acc.1) t
      · rw [hmid] at hd
        rcases setPositions_diff_descend nodes (layoutSubtreeHeights nodes) nodes.length r
          50 acc.2 acc.1 t hd with ⟨m, hm1, hm2⟩
        exact ⟨r, List.mem_cons_self r rs, m, hm1, hm2⟩
      · rcases ihr _ hmid with ⟨r', hr', m, hm1, hm2⟩
        exact ⟨r', List.mem_cons_of_mem _ hr', m, hm1, hm2⟩
  exact aux (layoutRoots nodes) ([], 50) (by simpa [amGet] using h)

theorem descend_mem {nodes : List Node} {r m : Node} (hr : r ∈ nodes)
    (h : Descend nodes r m) : m ∈ nodes := by
  induction h with
  | refl => exact hr
  | tail _ hstep ih => exact hstep.1

/-- C4 amended.  A node whose `parentId` is non-null but not the id of any
node in the collection is not positioned at all: the positions map has no
entry for it and `layoutTree` returns it unchanged (keeping its input x and
y), rather than assigning it coordinates the way it does for a root. -/
theorem dangling_parent_left_unpositioned (nodes : List Node)
    (hu : UniqueIds nodes) (n : Node) (hn : n ∈ nodes) (p : Nat)
    (hp : n.parentId = some p) (habs : ∀ m ∈ nodes, m.id ≠ p) :
    amGet (layoutPositions nodes) n.id = none ∧
    ∀ m ∈ layoutTree nodes, m.id = n.id → m = n := by
  have hnone : amGet (layoutPositions nodes) n.id = none := by
    by_contra hsome
    rcases layoutPositions_some_descend nodes n.id hsome with ⟨r, hr, m, hmid, hdesc⟩
    have hrmem : r ∈ nodes := (List.mem_filter.mp hr).1
    have hmmem : m ∈ nodes := descend_mem hrmem hdesc
    have hmn : m = n := mem_id_inj hu hmmem hn hmid
    subst hmn
    rcases Relation.ReflTransGen.cases_tail hdesc with heq | ⟨b, hdb, hstep⟩
    · have hroot : m.parentId = none := by
        have := (List.mem_filter.mp hr).2
        rw [← heq] at this
        simpa using this
      rw [hroot] at hp
      exact Option.noConfusion hp
    · rcases hstep with ⟨_, hpid⟩
      rw [hp] at hpid
      have hbp : b.id = p := (Option.some.injEq _ _).mp hpid.symm
      exact habs b (descend_mem hrmem hdb) hbp
  refine ⟨hnone, ?_⟩
  intro m hm hid
  rw [layoutTree] at hm
  by_cases hne : nodes.isEmpty
  · rw [if_pos hne] at hm
    exact absurd hm (List.not_mem_nil m)
  · rw [if_neg hne] at hm
    rcases List.mem_map.mp hm with ⟨n', hn', hfn⟩
    have hidpres : (match amGet (layoutPositions nodes) n'.id with
        | some q => { n' with x := q.1, y := q.2 }
        | none => n').id = n'.id := by
      cases amGet (layoutPositions nodes) n'.id <;> rfl
    have hid' : n'.id = n.id := by
      rw [← hfn] at hid
      rw [hidpres] at hid
      exact hid
    have : n' = n := mem_id_inj hu hn' hn hid'
    subst this
    rw [hnone] at hfn
    exact hfn.symm

/-- C4 witness: the theorem applied to the singleton collection holding only
`orphanNode`, whose parent id 99 resolves to nothing. -/
theorem dangling_parent_witness :
    amGet (layoutPositions [orphanNode]) orphanNode.id = none :=
  (dangling_parent_left_unpositioned [orphanNode] (by unfold UniqueIds; simp)
    orphanNode (List.mem_singleton.mpr rfl) 99 rfl (by decide)).1

/-! ## Correctness of the subtree-height pass -/

theorem childrenOf_rank_lt {nodes : List Node} {rank : Nat → Nat} (hrk : RankOk rank nodes)
    {n : Node} (hn : n ∈ nodes) {c : Node} (hc : c ∈ childrenOf nodes n.id) :
    rank c.id < rank n.id := by
  rcases mem_childrenOf.mp hc with ⟨hcm, hcp⟩
  exact hrk n hn c hcm hcp

theorem shOf_fuel_irrel {nodes : List Node} {rank : Nat → Nat} (hrk : RankOk rank nodes) :
    ∀ f g n, n ∈ nodes → rank n.id < f → rank n.id < g →
      shOf nodes f n = shOf nodes g n := by
  intro f
  induction f with
  | zero => intro g n _ hf _; exact absurd hf (Nat.not_lt_zero _)
  | succ f ih =>
    intro g n hn hf hg
    rcases g with _ | g
    · exact absurd hg (Nat.not_lt_zero _)
    simp only [shOf]
    have hfold : (childrenOf nodes n.id).foldl (fun a c => a + shOf nodes f c) 0 =
        (childrenOf nodes n.id).foldl (fun a c => a + shOf nodes g c) 0 := by
      refine foldl_congr_mem (fun a c hc => ?_) 0
      have hlt := childrenOf_rank_lt hrk hn hc
      have hcm : c ∈ nodes := (mem_childrenOf.mp hc).1
      rw [ih g c hcm (by omega) (by omega)]
    rw [hfold]

theorem shOfAt_rec (nodes : List Node) (rank : Nat → Nat) (hu : UniqueIds nodes)
    (hrk : RankOk rank nodes) (hrb : RankBounded rank nodes) (n : Node) (hn : n ∈ nodes) :
    shOfAt nodes n.id =
      if (childrenOf nodes n.id).isEmpty then n.height
      else
        max ((childrenOf nodes n.id).foldl (fun a c => a + shOfAt nodes c.id) 0 +
          (((childrenOf nodes n.id).length - 1 : Nat) : Rat) * V_SPACE) n.height := by
  have hfind : findNode nodes n.id = some n := findNode_eq_of_mem hu hn rfl
  have hlen : 0 < nodes.length := List.length_pos.mpr (by rintro rfl; exact (List.not_mem_nil n) hn)
  have hL : shOfAt nodes n.id = shOf nodes nodes.length n := by
    unfold shOfAt
    rw [hfind]
  rw [hL, show nodes.length = (nodes.length - 1) + 1 from by omega]
  simp only [shOf]
  have hfold : (childrenOf nodes n.id).foldl (fun a c => a + shOf nodes (nodes.length - 1) c) 0 =
      (childrenOf nodes n.id).foldl (fun a c => a + shOfAt nodes c.id) 0 := by
    refine foldl_congr_mem (fun a c hc => ?_) 0
    have hcm : c ∈ nodes := (mem_childrenOf.mp hc).1
    have h1 : rank c.id < rank n.id := childrenOf_rank_lt hrk hn hc
    have h2 : rank n.id < nodes.length := hrb n hn
    rw [shOf_fuel_irrel hrk (nodes.length - 1) nodes.length c hcm (by omega) (by omega)]
    unfold shOfAt
    rw [findNode_eq_of_mem hu hcm rfl]
  rw [hfold]

theorem calculateHeights_master (nodes : List Node) (rank : Nat → Nat)
    (hu : UniqueIds nodes) (hrk : RankOk rank nodes) (hrb : RankBounded rank nodes) :
    ∀ fuel n sh₀, n ∈ nodes → rank n.id < fuel →
      (∀ t v, amGet sh₀ t = some v → v = shOfAt nodes t) →
      (∀ t v, amGet (calculateHeights nodes fuel n sh₀) t = some v → v = shOfAt nodes t) ∧
      (∀ t, (amGet sh₀ t).isSome → (amGet (calculateHeights nodes fuel n sh₀) t).isSome) ∧
      (∀ m, Descend nodes n m → (amGet (calculateHeights nodes fuel n sh₀) m.id).isSome) := by
  intro fuel
  induction fuel with
  | zero => intro n sh₀ _ hf _; exact absurd hf (Nat.not_lt_zero _)
  | succ fuel ih =>
    intro n sh₀ hn hf hvc
    by_cases hemp : (childrenOf nodes n.id).isEmpty
    · have hnil : childrenOf nodes n.id = [] := by simpa using hemp
      have hstep : calculateHeights nodes (fuel + 1) n sh₀ = (n.id, n.height) :: sh₀ := by
        simp only [calculateHeights]
        rw [if_pos hemp]
      rw [hstep]
      refine ⟨?_, ?_, ?_⟩
      · intro t v h
        rw [amGet_cons] at h
        by_cases hid : n.id = t
        · rw [if_pos hid] at h
          have hv : v = n.height := by
            exact (Option.some.injEq _ _).mp h.symm
          rw [hv, ← hid, shOfAt_rec nodes rank hu hrk hrb n hn, if_pos hemp]
        · rw [if_neg hid] at h
          exact hvc t v h
      · intro t h
        exact amGet_cons_isSome _ _ h
      · intro m hd
        rcases Relation.ReflTransGen.cases_head hd with heq | ⟨c, hc, _⟩
        · rw [← heq, amGet_cons, if_pos rfl]
          rfl
        · rcases hc with ⟨hcm, hcp⟩
          have hcc : c ∈ childrenOf nodes n.id := mem_childrenOf.mpr ⟨hcm, hcp⟩
          rw [hnil] at hcc
          exact absurd hcc (List.not_mem_nil _)
    · have hstep : calculateHeights nodes (fuel + 1) n sh₀ =
          (n.id,
            max (((childrenOf nodes n.id).foldl
                (fun acc c => acc +
                  ((amGet ((childrenOf nodes n.id).foldl
                    (fun acc c => calculateHeights nodes fuel c acc) sh₀) c.id).getD 0)) 0) +
              (((childrenOf nodes n.id).length - 1 : Nat) : Rat) * V_SPACE) n.height) ::
            ((childrenOf nodes n.id).foldl
              (fun acc c => calculateHeights nodes fuel c acc) sh₀) := by
        simp only [calculateHeights]
        rw [if_neg hemp]
      have hfold : ∀ (l : List Node), (∀ c ∈ l, c ∈ childrenOf nodes n.id) →
          ∀ sh', (∀ t v, amGet sh' t = some v → v = shOfAt nodes t) →
          (∀ t v, amGet (l.foldl (fun acc c => calculateHeights nodes fuel c acc) sh') t = some v →
            v = shOfAt nodes t) ∧
          (∀ t, (amGet sh' t).isSome →
            (amGet (l.foldl (fun acc c => calculateHeights nodes fuel c acc) sh') t).isSome) ∧
          (∀ c ∈ l, ∀ m, Descend nodes c m →
            (amGet (l.foldl (fun acc c => calculateHeights nodes fuel c acc) sh') m.id).isSome) := by
        intro l
        induction l with
        | nil =>
          intro _ sh' hvc'
          refine ⟨hvc', fun t h => h, ?_⟩
          intro c hc
          exact absurd hc (List.not_mem_nil c)
        | cons c l' ihl =>
          intro hsub sh' hvc'
          have hcmem : c ∈ childrenOf nodes n.id := hsub c (List.mem_cons_self c l')
          have hcn : c ∈ nodes := (mem_childrenOf.mp hcmem).1
          have hcrank : rank c.id < fuel := by
            have := childrenOf_rank_lt hrk hn hcmem
            omega
          rcases ih c sh' hcn hcrank hvc' with ⟨VCs, PREs, DESs⟩
          rcases ihl (fun c' hc' => hsub c' (List.mem_cons_of_mem _ hc'))
            (calculateHeights nodes fuel c sh') VCs with ⟨VCf, PREf, DESf⟩
          rw [List.foldl_cons]
          refine ⟨VCf, fun t h => PREf t (PREs t h), ?_⟩
          intro c' hc' m hd
          rcases List.mem_cons.mp hc' with rfl | hmem
          · exact PREf _ (DESs m hd)
          · exact DESf c' hmem m hd
      rcases hfold (childrenOf nodes n.id) (fun c hc => hc) sh₀ hvc with ⟨VC1, PRE1, DES1⟩
      have hlook : ∀ c ∈ childrenOf nodes n.id,
          (amGet ((childrenOf nodes n.id).foldl
            (fun acc c => calculateHeights nodes fuel c acc) sh₀) c.id).getD 0 =
          shOfAt nodes c.id := by
        intro c hc
        have hs := DES1 c hc c Relation.ReflTransGen.refl
        rcases Option.isSome_iff_exists.mp hs with ⟨v', hv'⟩
        rw [hv']
        have := VC1 _ _ hv'
        simp [this]
      rw [hstep]
      refine ⟨?_, ?_, ?_⟩
      · intro t v h
        rw [amGet_cons] at h
        by_cases hid : n.id = t
        · rw [if_pos hid] at h
          have hv := (Option.some.injEq _ _).mp h.symm
          rw [hv, ← hid, shOfAt_rec nodes rank hu hrk hrb n hn, if_neg hemp]
          have hcong : (childrenOf nodes n.id).foldl
              (fun acc c => acc +
                ((amGet ((childrenOf nodes n.id).foldl
                  (fun acc c => calculateHeights nodes fuel c acc) sh₀) c.id).getD 0)) 0 =
              (childrenOf nodes n.id).foldl (fun a c => a + shOfAt nodes c.id) 0 := by
            refine foldl_congr_mem (fun a c hc => ?_) 0
            rw [hlook c hc]
          rw [hcong]
        · rw [if_neg hid] at h
          exact VC1 t v h
      · intro t h
        exact amGet_cons_isSome _ _ (PRE1 t h)
      · intro m hd
        rcases Relation.ReflTransGen.cases_head hd with heq | ⟨c, hc, hcm⟩
        · rw [← heq, amGet_cons, if_pos rfl]
          rfl
        · rcases hc with ⟨hc1, hc2⟩
          have hcc : c ∈ childrenOf nodes n.id := mem_childrenOf.mpr ⟨hc1, hc2⟩
          exact amGet_cons_isSome _ _ (DES1 c hcc m hcm)

theorem exists_root_descend (nodes : List Node) (rank : Nat → Nat)
    (hrk : RankOk rank nodes) (hrb : RankBounded rank nodes) (hpr : ParentsResolve nodes) :
    ∀ m ∈ nodes, ∃ r ∈ layoutRoots nodes, Descend nodes r m := by
  have aux : ∀ k m, m ∈ nodes → nodes.length - rank m.id ≤ k →
      ∃ r ∈ layoutRoots nodes, Descend nodes r m := by
    intro k
    induction k with
    | zero =>
      intro m hm hk
      have := hrb m hm
      omega
    | succ k ihk =>
      intro m hm hk
      cases hpid : m.parentId with
      | none =>
        refine ⟨m, ?_, Relation.ReflTransGen.refl⟩
        exact List.mem_filter.mpr ⟨hm, by simp [hpid]⟩
      | some pid =>
        rcases hpr m hm pid hpid with ⟨p, hpmem, hpeq⟩
        have hlt : rank m.id < rank p.id := hrk p hpmem m hm (by rw [hpid, hpeq])
        have hpk : nodes.length - rank p.id ≤ k := by
          have := hrb p hpmem
          omega
        rcases ihk p hpmem hpk with ⟨r, hr, hd⟩
        exact ⟨r, hr, Relation.ReflTransGen.tail hd ⟨hm, by rw [hpid, hpeq]⟩⟩
  intro m hm
  exact aux (nodes.length - rank m.id) m hm le_rfl

theorem layoutSubtreeHeights_lookup (nodes : List Node) (rank : Nat → Nat)
    (hu : UniqueIds nodes) (hrk : RankOk rank nodes) (hrb : RankBounded rank nodes)
    (hpr : ParentsResolve nodes) :
    ∀ m ∈ nodes, amGet (layoutSubtreeHeights nodes) m.id = some (shOfAt nodes m.id) := by
  have main : (∀ t v, amGet (layoutSubtreeHeights nodes) t = some v → v = shOfAt nodes t) ∧
      (∀ r ∈ layoutRoots nodes, ∀ m, Descend nodes r m →
        (amGet (layoutSubtreeHeights nodes) m.id).isSome) := by
    rw [layoutSubtreeHeights]
    have aux : ∀ (rs : List Node), (∀ r ∈ rs, r ∈ layoutRoots nodes) → ∀ sh',
        (∀ t v, amGet sh' t = some v → v = shOfAt nodes t) →
        (∀ t v, amGet (rs.foldl (fun acc r => calculateHeights nodes nodes.length r acc) sh') t =
          some v → v = shOfAt nodes t) ∧
        (∀ t, (amGet sh' t).isSome →
          (amGet (rs.foldl (fun acc r => calculateHeights nodes nodes.length r acc) sh') t).isSome) ∧
        (∀ r ∈ rs, ∀ m, Descend nodes r m →
          (amGet (rs.foldl (fun acc r => calculateHeights nodes nodes.length r acc) sh') m.id).isSome) := by
      intro rs
      induction rs with
      | nil =>
        intro _ sh' hvc'
        exact ⟨hvc', fun t h => h, fun r hr => absurd hr (List.not_mem_nil r)⟩
      | cons r rs' ihr =>
        intro hsub sh' hvc'
        have hrroot : r ∈ layoutRoots nodes := hsub r (List.mem_cons_self r rs')
        have hrmem : r ∈ nodes := (List.mem_filter.mp hrroot).1
        have hrrank : rank r.id < nodes.length := hrb r hrmem
        rcases calculateHeights_master nodes rank hu hrk hrb nodes.length r sh' hrmem hrrank hvc'
          with ⟨VCs, PREs, DESs⟩
        rcases ihr (fun r' hr' => hsub r' (List.mem_cons_of_mem _ hr'))
          (calculateHeights nodes nodes.length r sh') VCs with ⟨VCf, PREf, DESf⟩
        rw [List.foldl_cons]
        refine ⟨VCf, fun t h => PREf t (PREs t h), ?_⟩
        intro r' hr' m hd
        rcases List.mem_cons.mp hr' with rfl | hmem
        · exact PREf _ (DESs m hd)
        · exact DESf r' hmem m hd
    rcases aux (layoutRoots nodes) (fun r hr => hr) [] (by intro t v h; exact absurd h (by simp [amGet])) with
      ⟨VC, _, DES⟩
    exact ⟨VC, DES⟩
  intro m hm
  rcases exists_root_descend nodes rank hrk hrb hpr m hm with ⟨r, hr, hd⟩
  have hs := main.2 r hr m hd
  rcases Option.isSome_iff_exists.mp hs with ⟨v, hv⟩
  rw [hv, main.1 m.id v hv]

/-- C2.  For every node of a well-formed forest (unique ids, acyclic parent
edges witnessed by `rank`, every non-null `parentId` resolving), the subtree
height recorded by the post-order pass equals the node's own height when it
has no children, and `max(own height, sum of the children's recorded subtree
heights + (number of children - 1) * 20)` when it has children. -/
theorem subtree_height_recurrence (nodes : List Node) (rank : Nat → Nat)
    (hu : UniqueIds nodes) (hrk : RankOk rank nodes) (hrb : RankBounded rank nodes)
    (hpr : ParentsResolve nodes) (m : Node) (hm : m ∈ nodes) :
    amGet (layoutSubtreeHeights nodes) m.id =
      some (if (childrenOf nodes m.id).isEmpty then m.height
        else max m.height
          ((childrenOf nodes m.id).foldl
            (fun a c => a + ((amGet (layoutSubtreeHeights nodes) c.id).getD 0)) 0 +
            (((childrenOf nodes m.id).length - 1 : Nat) : Rat) * 20)) := by
  rw [layoutSubtreeHeights_lookup nodes rank hu hrk hrb hpr m hm]
  rw [shOfAt_rec nodes rank hu hrk hrb m hm]
  by_cases hemp : (childrenOf nodes m.id).isEmpty
  · rw [if_pos hemp, if_pos hemp]
  · rw [if_neg hemp, if_neg hemp]
    have hcong : (childrenOf nodes m.id).foldl
        (fun a c => a + ((amGet (layoutSubtreeHeights nodes) c.id).getD 0)) 0 =
        (childrenOf nodes m.id).foldl (fun a c => a + shOfAt nodes c.id) 0 := by
      refine foldl_congr_mem (fun a c hc => ?_) 0
      have hcm : c ∈ nodes := (mem_childrenOf.mp hc).1
      rw [layoutSubtreeHeights_lookup nodes rank hu hrk hrb hpr c hcm]
      rfl
    rw [hcong, max_comm]
    rfl

/-- C2 witness: the recurrence applied to node A of the scenario forest with
width 220, evaluated to the concrete subtree height 180. -/
theorem subtree_height_recurrence_witness :
    amGet (layoutSubtreeHeights (exScenarioW 220 220 220)) 1 = some 180 := by
  have h := subtree_height_recurrence (exScenarioW 220 220 220) exScenarioRank
    (by unfold UniqueIds exScenarioW; decide)
    (by unfold RankOk exScenarioW exScenarioRank; decide)
    (by unfold RankBounded exScenarioW exScenarioRank; decide)
    (by unfold ParentsResolve exScenarioW; decide)
    (mkNode 1 none 220 60) (by simp [exScenarioW])
  rw [show (mkNode 1 none 220 60).id = 1 from rfl] at h
  rw [h]
  norm_num [exW_children1, exW_sh, amGet_cons, mkNode_id, mkNode_height]

/-! ## Correctness of the positioning pass -/

theorem specX_root {nodes : List Node} {r : Node} (h : r.parentId = none) :
    ∀ f, specX nodes f r = 50 := by
  intro f
  cases f with
  | zero => rfl
  | succ f => simp [specX, h]

theorem specBand_root {nodes : List Node} {r : Node} (h : r.parentId = none) :
    ∀ f, specBand nodes f r = rootBand nodes r := by
  intro f
  cases f with
  | zero => rfl
  | succ f => simp [specBand, h]

theorem specX_fuel_irrel {nodes : List Node} {rank : Nat → Nat}
    (hrk : RankOk rank nodes) (hrb : RankBounded rank nodes) :
    ∀ f g n, n ∈ nodes → nodes.length - rank n.id ≤ f → nodes.length - rank n.id ≤ g →
      specX nodes f n = specX nodes g n := by
  intro f
  induction f with
  | zero =>
    intro g n hn hf _
    have := hrb n hn
    omega
  | succ f ih =>
    intro g n hn hf hg
    rcases g with _ | g
    · have := hrb n hn
      omega
    cases hpid : n.parentId with
    | none => simp [specX, hpid]
    | some pid =>
      simp only [specX, hpid]
      cases hfind : findNode nodes pid with
      | none => rfl
      | some p =>
        rcases findNode_mem hfind with ⟨hpmem, hpeq⟩
        have hlt : rank n.id < rank p.id := hrk p hpmem n hn (by rw [hpid, hpeq])
        have hpb := hrb p hpmem
        show specX nodes f p + p.width + H_SPACE = specX nodes g p + p.width + H_SPACE
        rw [ih g p hpmem (by omega) (by omega)]

theorem specBand_fuel_irrel {nodes : List Node} {rank : Nat → Nat}
    (hrk : RankOk rank nodes) (hrb : RankBounded rank nodes) :
    ∀ f g n, n ∈ nodes → nodes.length - rank n.id ≤ f → nodes.length - rank n.id ≤ g →
      specBand nodes f n = specBand nodes g n := by
  intro f
  induction f with
  | zero =>
    intro g n hn hf _
    have := hrb n hn
    omega
  | succ f ih =>
    intro g n hn hf hg
    rcases g with _ | g
    · have := hrb n hn
      omega
    cases hpid : n.parentId with
    | none => simp [specBand, hpid]
    | some pid =>
      simp only [specBand, hpid]
      cases hfind : findNode nodes pid with
      | none => rfl
      | some p =>
        rcases findNode_mem hfind with ⟨hpmem, hpeq⟩
        have hlt : rank n.id < rank p.id := hrk p hpmem n hn (by rw [hpid, hpeq])
        have hpb := hrb p hpmem
        show specBand nodes f p + siblingOffset nodes p n =
          specBand nodes g p + siblingOffset nodes p n
        rw [ih g p hpmem (by omega) (by omega)]

theorem specX_child {nodes : List Node} {rank : Nat → Nat} (hu : UniqueIds nodes)
    (hrk : RankOk rank nodes) (hrb : RankBounded rank nodes)
    {n c : Node} (hn : n ∈ nodes) (hc : c ∈ nodes) (hcp : c.parentId = some n.id) :
    specX nodes nodes.length c = specX nodes nodes.length n + n.width + H_SPACE := by
  have hlen : 0 < nodes.length := List.length_pos.mpr (by rintro rfl; exact (List.not_mem_nil n) hn)
  have hlt : rank c.id < rank n.id := hrk n hn c hc hcp
  have hnb := hrb n hn
  have h1 : specX nodes nodes.length c = specX nodes (nodes.length - 1) n + n.width + H_SPACE := by
    conv_lhs => rw [show nodes.length = (nodes.length - 1) + 1 from by omega]
    simp only [specX, hcp]
    rw [findNode_eq_of_mem hu hn rfl]
  rw [h1,
    specX_fuel_irrel hrk hrb (nodes.length - 1) nodes.length n hn (by omega) (by omega)]

theorem specBand_child {nodes : List Node} {rank : Nat → Nat} (hu : UniqueIds nodes)
    (hrk : RankOk rank nodes) (hrb : RankBounded rank nodes)
    {n c : Node} (hn : n ∈ nodes) (hc : c ∈ nodes) (hcp : c.parentId = some n.id) :
    specBand nodes nodes.length c = specBand nodes nodes.length n + siblingOffset nodes n c := by
  have hlen : 0 < nodes.length := List.length_pos.mpr (by rintro rfl; exact (List.not_mem_nil n) hn)
  have hlt : rank c.id < rank n.id := hrk n hn c hc hcp
  have hnb := hrb n hn
  have h1 : specBand nodes nodes.length c =
      specBand nodes (nodes.length - 1) n + siblingOffset nodes n c := by
    conv_lhs => rw [show nodes.length = (nodes.length - 1) + 1 from by omega]
    simp only [specBand, hcp]
    rw [findNode_eq_of_mem hu hn rfl]
  rw [h1,
    specBand_fuel_irrel hrk hrb (nodes.length - 1) nodes.length n hn (by omega) (by omega)]

theorem shOfAt_pos {nodes : List Node} {rank : Nat → Nat} (hu : UniqueIds nodes)
    (hrk : RankOk rank nodes) (hrb : RankBounded rank nodes) (hph : PositiveHeights nodes)
    {d : Node} (hd : d ∈ nodes) : 0 < shOfAt nodes d.id := by
  rw [shOfAt_rec nodes rank hu hrk hrb d hd]
  by_cases hemp : (childrenOf nodes d.id).isEmpty
  · rw [if_pos hemp]
    exact hph d hd
  · rw [if_neg hemp]
    exact lt_of_lt_of_le (hph d hd) (le_max_right _ _)

theorem shOfAt_eq_shOf {nodes : List Node} (hu : UniqueIds nodes) {n : Node} (hn : n ∈ nodes) :
    shOfAt nodes n.id = shOf nodes nodes.length n := by
  unfold shOfAt
  rw [findNode_eq_of_mem hu hn rfl]

theorem specXAt_eq_specX {nodes : List Node} (hu : UniqueIds nodes) {n : Node} (hn : n ∈ nodes) :
    specXAt nodes n.id = specX nodes nodes.length n := by
  unfold specXAt
  rw [findNode_eq_of_mem hu hn rfl]

theorem specYAt_eq {nodes : List Node} (hu : UniqueIds nodes) {n : Node} (hn : n ∈ nodes) :
    specYAt nodes n.id =
      specBand nodes nodes.length n + (shOf nodes nodes.length n - n.height) / 2 := by
  unfold specYAt
  rw [findNode_eq_of_mem hu hn rfl]

theorem setPositions_master (nodes : List Node) (rank : Nat → Nat)
    (hu : UniqueIds nodes) (hrk : RankOk rank nodes) (hrb : RankBounded rank nodes)
    (hpr : ParentsResolve nodes) :
    ∀ fuel n x y pos₀, n ∈ nodes → rank n.id < fuel →
      x = specX nodes nodes.length n → y = specBand nodes nodes.length n →
      (∀ t v, amGet pos₀ t = some v → v = (specXAt nodes t, specYAt nodes t)) →
      (∀ t v,
        amGet (setPositions nodes (layoutSubtreeHeights nodes) fuel n x y pos₀) t = some v →
          v = (specXAt nodes t, specYAt nodes t)) ∧
      (∀ t, (amGet pos₀ t).isSome →
        (amGet (setPositions nodes (layoutSubtreeHeights nodes) fuel n x y pos₀) t).isSome) ∧
      (∀ m, Descend nodes n m →
        (amGet (setPositions nodes (layoutSubtreeHeights nodes) fuel n x y pos₀) m.id).isSome) := by
  have hsh : ∀ m ∈ nodes, amGet (layoutSubtreeHeights nodes) m.id = some (shOfAt nodes m.id) :=
    layoutSubtreeHeights_lookup nodes rank hu hrk hrb hpr
  intro fuel
  induction fuel with
  | zero => intro n x y pos₀ _ hf _ _ _; exact absurd hf (Nat.not_lt_zero _)
  | succ fuel ih =>
    intro n x y pos₀ hn hf hx hy hvc
    have hstep : setPositions nodes (layoutSubtreeHeights nodes) (fuel + 1) n x y pos₀ =
        ((childrenOf nodes n.id).foldl
          (fun (acc : List (Nat × Rat × Rat) × Rat) child =>
            (setPositions nodes (layoutSubtreeHeights nodes) fuel child
              (x + n.width + H_SPACE) acc.2 acc.1,
             acc.2 + ((amGet (layoutSubtreeHeights nodes) child.id).getD 0) + V_SPACE))
          ((n.id, x, y + (((amGet (layoutSubtreeHeights nodes) n.id).getD 0) - n.height) / 2)
            :: pos₀, y)).1 := by
      simp only [setPositions]
    have hpos1vc : ∀ t v,
        amGet ((n.id, x, y + (((amGet (layoutSubtreeHeights nodes) n.id).getD 0) - n.height) / 2)
          :: pos₀) t = some v → v = (specXAt nodes t, specYAt nodes t) := by
      intro t v h
      rw [amGet_cons] at h
      by_cases hid : n.id = t
      · rw [if_pos hid] at h
        have hv := (Option.some.injEq _ _).mp h.symm
        rw [hv, ← hid]
        rw [hsh n hn]
        rw [specXAt_eq_specX hu hn, specYAt_eq hu hn, shOfAt_eq_shOf hu hn, hx, hy]
        rfl
      · rw [if_neg hid] at h
        exact hvc t v h
    have hpw : (childrenOf nodes n.id).Pairwise (fun a b => a.id ≠ b.id) :=
      List.Pairwise.sublist (childrenOf_sublist nodes n.id) hu
    have hfold : ∀ (todo done : List Node) (acc : List (Nat × Rat × Rat) × Rat),
        childrenOf nodes n.id = done ++ todo →
        acc.2 = specBand nodes nodes.length n +
          done.foldl (fun a d => a + shOfAt nodes d.id + V_SPACE) 0 →
        (∀ t v, amGet acc.1 t = some v → v = (specXAt nodes t, specYAt nodes t)) →
        (∀ t v, amGet ((todo.foldl
            (fun (acc : List (Nat × Rat × Rat) × Rat) child =>
              (setPositions nodes (layoutSubtreeHeights nodes) fuel child
                (x + n.width + H_SPACE) acc.2 acc.1,
               acc.2 + ((amGet (layoutSubtreeHeights nodes) child.id).getD 0) + V_SPACE))
            acc).1) t = some v → v = (specXAt nodes t, specYAt nodes t)) ∧
        (∀ t, (amGet acc.1 t).isSome → (amGet ((todo.foldl
            (fun (acc : List (Nat × Rat × Rat) × Rat) child =>
              (setPositions nodes (layoutSubtreeHeights nodes) fuel child
                (x + n.width + H_SPACE) acc.2 acc.1,
               acc.2 + ((amGet (layoutSubtreeHeights nodes) child.id).getD 0) + V_SPACE))
            acc).1) t).isSome) ∧
        (∀ c ∈ todo, ∀ m, Descend nodes c m → (amGet ((todo.foldl
            (fun (acc : List (Nat × Rat × Rat) × Rat) child =>
              (setPositions nodes (layoutSubtreeHeights nodes) fuel child
                (x + n.width + H_SPACE) acc.2 acc.1,
               acc.2 + ((amGet (layoutSubtreeHeights nodes) child.id).getD 0) + V_SPACE))
            acc).1) m.id).isSome) := by
      intro todo
      induction todo with
      | nil =>
        intro done acc _ _ hvca
        exact ⟨hvca, fun t h => h, fun c hc => absurd hc (List.not_mem_nil c)⟩
      | cons c todo' iht =>
        intro done acc hsplit hcur hvca
        have hcmem : c ∈ childrenOf nodes n.id := by
          rw [hsplit]
          exact List.mem_append.mpr (Or.inr (List.mem_cons_self c todo'))
        have hcn : c ∈ nodes := (mem_childrenOf.mp hcmem).1
        have hcp : c.parentId = some n.id := (mem_childrenOf.mp hcmem).2
        have hcrank : rank c.id < fuel := by
          have := childrenOf_rank_lt hrk hn hcmem
          omega
        -- the band origin handed to c is exactly specBand of c
        have hoff : siblingOffset nodes n c =
            done.foldl (fun a d => a + shOfAt nodes d.id + V_SPACE) 0 := by
          unfold siblingOffset
          rw [hsplit]
          rw [takeWhile_append_split (fun d hd => ?_) (by simp)]
          · rw [hsplit] at hpw
            have := List.pairwise_append.mp hpw
            have hne := this.2.2 d hd c (List.mem_cons_self c todo')
            simpa using hne
        have hyc : acc.2 = specBand nodes nodes.length c := by
          rw [specBand_child hu hrk hrb hn hcn hcp, hoff, hcur]
        have hxc : x + n.width + H_SPACE = specX nodes nodes.length c := by
          rw [specX_child hu hrk hrb hn hcn hcp, hx]
        rcases ih c (x + n.width + H_SPACE) acc.2 acc.1 hcn hcrank hxc hyc hvca with
          ⟨VCs, PREs, DESs⟩
        have hcur' : (acc.2 + ((amGet (layoutSubtreeHeights nodes) c.id).getD 0) + V_SPACE) =
            specBand nodes nodes.length n +
              (done ++ [c]).foldl (fun a d => a + shOfAt nodes d.id + V_SPACE) 0 := by
          rw [List.foldl_append, List.foldl_cons, List.foldl_nil, hsh c hcn, hcur]
          simp only [Option.getD_some]
          ring
        rcases iht (done ++ [c])
          (setPositions nodes (layoutSubtreeHeights nodes) fuel c
            (x + n.width + H_SPACE) acc.2 acc.1,
           acc.2 + ((amGet (layoutSubtreeHeights nodes) c.id).getD 0) + V_SPACE)
          (by rw [hsplit, List.append_assoc]; rfl) hcur' VCs with ⟨VCf, PREf, DESf⟩
        rw [List.foldl_cons]
        refine ⟨VCf, fun t h => PREf t (PREs t h), ?_⟩
        intro c' hc' m hd
        rcases List.mem_cons.mp hc' with rfl | hmem
        · exact PREf _ (DESs m hd)
        · exact DESf c' hmem m hd
    rcases hfold (childrenOf nodes n.id) [] ((n.id, x, y +
        (((amGet (layoutSubtreeHeights nodes) n.id).getD 0) - n.height) / 2) :: pos₀, y)
        rfl (by simpa using hy) hpos1vc with ⟨VC1, PRE1, DES1⟩
    rw [hstep]
    refine ⟨VC1, ?_, ?_⟩
    · intro t h
      exact PRE1 t (amGet_cons_isSome _ _ h)
    · intro m hd
      rcases Relation.ReflTransGen.cases_head hd with heq | ⟨c, hc, hcm⟩
      · refine PRE1 _ ?_
        rw [← heq, amGet_cons, if_pos rfl]
        rfl
      · rcases hc with ⟨hc1, hc2⟩
        have hcc : c ∈ childrenOf nodes n.id := mem_childrenOf.mpr ⟨hc1, hc2⟩
        exact DES1 c hcc m hcm

theorem layoutRoots_mem {nodes : List Node} {r : Node} (h : r ∈ layoutRoots nodes) :
    r ∈ nodes ∧ r.parentId = none := by
  rcases List.mem_filter.mp h with ⟨h1, h2⟩
  exact ⟨h1, by simpa using h2⟩

theorem layoutPositions_lookup (nodes : List Node) (rank : Nat → Nat)
    (hu : UniqueIds nodes) (hrk : RankOk rank nodes) (hrb : RankBounded rank nodes)
    (hpr : ParentsResolve nodes) :
    ∀ m ∈ nodes,
      amGet (layoutPositions nodes) m.id = some (specXAt nodes m.id, specYAt nodes m.id) := by
  have hsh : ∀ m ∈ nodes, amGet (layoutSubtreeHeights nodes) m.id = some (shOfAt nodes m.id) :=
    layoutSubtreeHeights_lookup nodes rank hu hrk hrb hpr
  have hpw : (layoutRoots nodes).Pairwise (fun a b => a.id ≠ b.id) :=
    List.Pairwise.sublist (List.filter_sublist nodes) hu
  have main : (∀ t v, amGet (layoutPositions nodes) t = some v →
      v = (specXAt nodes t, specYAt nodes t)) ∧
      (∀ r ∈ layoutRoots nodes, ∀ m, Descend nodes r m →
        (amGet (layoutPositions nodes) m.id).isSome) := by
    rw [layoutPositions]
    have aux : ∀ (todo done : List Node) (acc : List (Nat × Rat × Rat) × Rat),
        layoutRoots nodes = done ++ todo →
        acc.2 = 50 + done.foldl (fun a r => a + shOfAt nodes r.id + V_SPACE * 2) 0 →
        (∀ t v, amGet acc.1 t = some v → v = (specXAt nodes t, specYAt nodes t)) →
        (∀ t v, amGet ((todo.foldl
            (fun (acc : List (Nat × Rat × Rat) × Rat) root =>
              (setPositions nodes (layoutSubtreeHeights nodes) nodes.length root 50 acc.2 acc.1,
               acc.2 + ((amGet (layoutSubtreeHeights nodes) root.id).getD 0) + V_SPACE * 2))
            acc).1) t = some v → v = (specXAt nodes t, specYAt nodes t)) ∧
        (∀ t, (amGet acc.1 t).isSome → (amGet ((todo.foldl
            (fun (acc : List (Nat × Rat × Rat) × Rat) root =>
              (setPositions nodes (layoutSubtreeHeights nodes) nodes.length root 50 acc.2 acc.1,
               acc.2 + ((amGet (layoutSubtreeHeights nodes) root.id).getD 0) + V_SPACE * 2))
            acc).1) t).isSome) ∧
        (∀ r ∈ todo, ∀ m, Descend nodes r m → (amGet ((todo.foldl
            (fun (acc : List (Nat × Rat × Rat) × Rat) root =>
              (setPositions nodes (layoutSubtreeHeights nodes) nodes.length root 50 acc.2 acc.1,
               acc.2 + ((amGet (layoutSubtreeHeights nodes) root.id).getD 0) + V_SPACE * 2))
            acc).1) m.id).isSome) := by
      intro todo
      induction todo with
      | nil =>
        intro done acc _ _ hvca
        exact ⟨hvca, fun t h => h, fun r hr => absurd hr (List.not_mem_nil r)⟩
      | cons r todo' iht =>
        intro done acc hsplit hcur hvca
        have hrroot : r ∈ layoutRoots nodes := by
          rw [hsplit]
          exact List.mem_append.mpr (Or.inr (List.mem_cons_self r todo'))
        rcases layoutRoots_mem hrroot with ⟨hrmem, hrnone⟩
        have hxr : (50 : Rat) = specX nodes nodes.length r := (specX_root hrnone _).symm
        have htw : (layoutRoots nodes).takeWhile (fun d => d.id != r.id) = done := by
          rw [hsplit]
          refine takeWhile_append_split (fun d hd => ?_) (by simp)
          rw [hsplit] at hpw
          have := (List.pairwise_append.mp hpw).2.2 d hd r (List.mem_cons_self r todo')
          simpa using this
        have hyr : acc.2 = specBand nodes nodes.length r := by
          rw [specBand_root hrnone]
          unfold rootBand
          rw [htw]
          exact hcur
        rcases setPositions_master nodes rank hu hrk hrb hpr nodes.length r 50 acc.2 acc.1
          hrmem (hrb r hrmem) hxr hyr hvca with ⟨VCs, PREs, DESs⟩
        have hcur2 : (acc.2 + ((amGet (layoutSubtreeHeights nodes) r.id).getD 0) + V_SPACE * 2) =
            50 + (done ++ [r]).foldl (fun a d => a + shOfAt nodes d.id + V_SPACE * 2) 0 := by
          rw [List.foldl_append, List.foldl_cons, List.foldl_nil, hsh r hrmem, hcur]
          simp only [Option.getD_some]
          ring
        rcases iht (done ++ [r])
          (setPositions nodes (layoutSubtreeHeights nodes) nodes.length r 50 acc.2 acc.1,
           acc.2 + ((amGet (layoutSubtreeHeights nodes) r.id).getD 0) + V_SPACE * 2)
          (by rw [hsplit, List.append_assoc]; rfl) hcur2 VCs with ⟨VCf, PREf, DESf⟩
        rw [List.foldl_cons]
        refine ⟨VCf, fun t h => PREf t (PREs t h), ?_⟩
        intro r' hr' m hd
        rcases List.mem_cons.mp hr' with rfl | hmem
        · exact PREf _ (DESs m hd)
        · exact DESf r' hmem m hd
    rcases aux (layoutRoots nodes) [] ([], 50) rfl (by norm_num)
      (by intro t v h; exact absurd h (by simp [amGet])) with ⟨VC, _, DES⟩
    exact ⟨VC, DES⟩
  intro m hm
  rcases exists_root_descend nodes rank hrk hrb hpr m hm with ⟨r, hr, hd⟩
  have hs := main.2 r hr m hd
  rcases Option.isSome_iff_exists.mp hs with ⟨v, hv⟩
  rw [hv, main.1 m.id v hv]

theorem layoutTree_char (nodes : List Node) (rank : Nat → Nat)
    (hu : UniqueIds nodes) (hrk : RankOk rank nodes) (hrb : RankBounded rank nodes)
    (hpr : ParentsResolve nodes) :
    layoutTree nodes = nodes.map (fun n =>
      { n with x := specXAt nodes n.id, y := specYAt nodes n.id }) := by
  rw [layoutTree]
  by_cases hemp : nodes.isEmpty
  · rw [if_pos hemp]
    have hnil : nodes = [] := by simpa using hemp
    rw [hnil]
    rfl
  · rw [if_neg hemp]
    refine List.map_congr_left (fun n hn => ?_)
    rw [layoutPositions_lookup nodes rank hu hrk hrb hpr n hn]

theorem foldl_offset_as_sum (nodes : List Node) (g : Rat) :
    ∀ (l : List Node) (a : Rat),
      l.foldl (fun x c => x + shOfAt nodes c.id + g) a =
        a + (l.map (fun c => shOfAt nodes c.id + g)).sum := by
  intro l a
  have : (fun (x : Rat) (c : Node) => x + shOfAt nodes c.id + g) =
      (fun (x : Rat) (c : Node) => x + (shOfAt nodes c.id + g)) := by
    funext x c
    ring
  rw [this, foldl_add_eq]

theorem siblingOffset_gap (nodes : List Node) (rank : Nat → Nat)
    (hu : UniqueIds nodes) (hrk : RankOk rank nodes) (hrb : RankBounded rank nodes)
    (hph : PositiveHeights nodes) {p : Node}
    {l1 l2 l3 : List Node} {a b : Node}
    (hsplit : childrenOf nodes p.id = l1 ++ a :: (l2 ++ b :: l3)) :
    siblingOffset nodes p a + shOfAt nodes a.id + V_SPACE ≤ siblingOffset nodes p b := by
  have hpw : (childrenOf nodes p.id).Pairwise (fun x y => x.id ≠ y.id) :=
    List.Pairwise.sublist (childrenOf_sublist nodes p.id) hu
  rw [hsplit] at hpw
  have hsubnodes : ∀ d ∈ childrenOf nodes p.id, d ∈ nodes := fun d hd =>
    (mem_childrenOf.mp hd).1
  rw [hsplit] at hsubnodes
  have htwa : (l1 ++ a :: (l2 ++ b :: l3)).takeWhile (fun d => d.id != a.id) = l1 := by
    refine takeWhile_append_split (fun d hd => ?_) (by simp)
    have := (List.pairwise_append.mp hpw).2.2 d hd a (List.mem_cons_self _ _)
    simpa using this
  have htwb : (l1 ++ a :: (l2 ++ b :: l3)).takeWhile (fun d => d.id != b.id) =
      l1 ++ a :: l2 := by
    have hb : b ∈ a :: (l2 ++ b :: l3) := by
      refine List.mem_cons_of_mem _ ?_
      exact List.mem_append.mpr (Or.inr (List.mem_cons_self _ _))
    have h1 : ∀ d ∈ l1, (fun d => d.id != b.id) d = true := by
      intro d hd
      have := (List.pairwise_append.mp hpw).2.2 d hd b hb
      simpa using this
    have hpw2 : (a :: (l2 ++ b :: l3)).Pairwise (fun x y => x.id ≠ y.id) :=
      (List.pairwise_append.mp hpw).2.1
    have h2 : (fun d => d.id != b.id) a = true := by
      have := (List.pairwise_cons.mp hpw2).1 b (List.mem_append.mpr (Or.inr (List.mem_cons_self _ _)))
      simpa using this
    have hpw3 : (l2 ++ b :: l3).Pairwise (fun x y => x.id ≠ y.id) :=
      (List.pairwise_cons.mp hpw2).2
    have h3 : ∀ d ∈ l2, (fun d => d.id != b.id) d = true := by
      intro d hd
      have := (List.pairwise_append.mp hpw3).2.2 d hd b (List.mem_cons_self _ _)
      simpa using this
    have hall : ∀ d ∈ l1 ++ a :: l2, (fun d => d.id != b.id) d = true := by
      intro d hd
      rcases List.mem_append.mp hd with hd1 | hd2
      · exact h1 d hd1
      · rcases List.mem_cons.mp hd2 with rfl | hd3
        · exact h2
        · exact h3 d hd3
    have hshape : l1 ++ a :: (l2 ++ b :: l3) = (l1 ++ a :: l2) ++ b :: l3 := by
      simp
    rw [hshape]
    exact takeWhile_append_split hall (by simp)
  unfold siblingOffset
  rw [hsplit, htwa, htwb]
  rw [foldl_offset_as_sum, foldl_offset_as_sum]
  have hsum : ((l1 ++ a :: l2).map (fun c => shOfAt nodes c.id + V_SPACE)).sum =
      (l1.map (fun c => shOfAt nodes c.id + V_SPACE)).sum + (shOfAt nodes a.id + V_SPACE) +
      (l2.map (fun c => shOfAt nodes c.id + V_SPACE)).sum := by
    simp [List.sum_append]
    ring
  rw [hsum]
  have hl2 : 0 ≤ (l2.map (fun c => shOfAt nodes c.id + V_SPACE)).sum := by
    refine List.sum_nonneg (fun x hx => ?_)
    rcases List.mem_map.mp hx with ⟨d, hd, rfl⟩
    have hdn : d ∈ nodes := by
      refine hsubnodes d ?_
      refine List.mem_append.mpr (Or.inr (List.mem_cons_of_mem _ ?_))
      exact List.mem_append.mpr (Or.inl hd)
    have := shOfAt_pos hu hrk hrb hph hdn
    have hv : (0:Rat) < V_SPACE := by norm_num [V_SPACE]
    linarith
  linarith

/-- C1.  In the layout produced by `layoutTree` on a well-formed forest
(unique ids, acyclic parent edges, positive heights, parent ids resolving),
the vertical bands `[y, y + subtreeHeight)` reserved for the subtrees of two
distinct siblings under the same parent do not intersect; the band of a child
starts at its output y minus the centering offset `(subtreeHeight - height)/2`
and extends for its recorded subtree height. -/
theorem sibling_subtree_bands_disjoint (nodes : List Node) (rank : Nat → Nat)
    (hu : UniqueIds nodes) (hrk : RankOk rank nodes) (hrb : RankBounded rank nodes)
    (hpr : ParentsResolve nodes) (hph : PositiveHeights nodes)
    {p c1 c2 : Node} (hp : p ∈ nodes) (hc1 : c1 ∈ nodes) (hc2 : c2 ∈ nodes)
    (hp1 : c1.parentId = some p.id) (hp2 : c2.parentId = some p.id) (hne : c1 ≠ c2)
    {o1 o2 : Node} (ho1 : o1 ∈ layoutTree nodes) (ho2 : o2 ∈ layoutTree nodes)
    (hid1 : o1.id = c1.id) (hid2 : o2.id = c2.id) :
    ∀ z : Rat,
      ¬((o1.y - (((amGet (layoutSubtreeHeights nodes) c1.id).getD 0) - c1.height) / 2 ≤ z ∧
         z < o1.y - (((amGet (layoutSubtreeHeights nodes) c1.id).getD 0) - c1.height) / 2 +
           ((amGet (layoutSubtreeHeights nodes) c1.id).getD 0)) ∧
        (o2.y - (((amGet (layoutSubtreeHeights nodes) c2.id).getD 0) - c2.height) / 2 ≤ z ∧
         z < o2.y - (((amGet (layoutSubtreeHeights nodes) c2.id).getD 0) - c2.height) / 2 +
           ((amGet (layoutSubtreeHeights nodes) c2.id).getD 0))) := by
  have hchar := layoutTree_char nodes rank hu hrk hrb hpr
  rw [hchar] at ho1 ho2
  rcases List.mem_map.mp ho1 with ⟨n1, hn1, ho1e⟩
  rcases List.mem_map.mp ho2 with ⟨n2, hn2, ho2e⟩
  have hn1c : n1 = c1 := mem_id_inj hu hn1 hc1 (by rw [← hid1, ← ho1e])
  have hn2c : n2 = c2 := mem_id_inj hu hn2 hc2 (by rw [← hid2, ← ho2e])
  have hy1 : o1.y = specYAt nodes c1.id := by rw [← ho1e, hn1c]
  have hy2 : o2.y = specYAt nodes c2.id := by rw [← ho2e, hn2c]
  have hS1 : (amGet (layoutSubtreeHeights nodes) c1.id).getD 0 = shOfAt nodes c1.id := by
    rw [layoutSubtreeHeights_lookup nodes rank hu hrk hrb hpr c1 hc1]
    rfl
  have hS2 : (amGet (layoutSubtreeHeights nodes) c2.id).getD 0 = shOfAt nodes c2.id := by
    rw [layoutSubtreeHeights_lookup nodes rank hu hrk hrb hpr c2 hc2]
    rfl
  have hb1 : o1.y - (shOfAt nodes c1.id - c1.height) / 2 = specBand nodes nodes.length c1 := by
    rw [hy1, specYAt_eq hu hc1, shOfAt_eq_shOf hu hc1]
    ring
  have hb2 : o2.y - (shOfAt nodes c2.id - c2.height) / 2 = specBand nodes nodes.length c2 := by
    rw [hy2, specYAt_eq hu hc2, shOfAt_eq_shOf hu hc2]
    ring
  have hband1 : specBand nodes nodes.length c1 =
      specBand nodes nodes.length p + siblingOffset nodes p c1 :=
    specBand_child hu hrk hrb hp hc1 hp1
  have hband2 : specBand nodes nodes.length c2 =
      specBand nodes nodes.length p + siblingOffset nodes p c2 :=
    specBand_child hu hrk hrb hp hc2 hp2
  have hc1' : c1 ∈ childrenOf nodes p.id := mem_childrenOf.mpr ⟨hc1, hp1⟩
  have hc2' : c2 ∈ childrenOf nodes p.id := mem_childrenOf.mpr ⟨hc2, hp2⟩
  have hV : (0:Rat) < V_SPACE := by norm_num [V_SPACE]
  have hgap : siblingOffset nodes p c1 + shOfAt nodes c1.id + V_SPACE ≤ siblingOffset nodes p c2 ∨
      siblingOffset nodes p c2 + shOfAt nodes c2.id + V_SPACE ≤ siblingOffset nodes p c1 := by
    rcases List.append_of_mem hc1' with ⟨l1, l2, hcs⟩
    have hc2'' := hc2'
    rw [hcs] at hc2''
    rcases List.mem_append.mp hc2'' with hin1 | hin2
    · rcases List.append_of_mem hin1 with ⟨m1, m2, hl1⟩
      right
      refine @siblingOffset_gap nodes rank hu hrk hrb hph p m1 m2 l2 c2 c1 ?_
      rw [hcs, hl1]
      simp
    · rcases List.mem_cons.mp hin2 with heq | hin3
      · exact absurd heq.symm hne
      · rcases List.append_of_mem hin3 with ⟨m1, m2, hl2⟩
        left
        refine @siblingOffset_gap nodes rank hu hrk hrb hph p l1 m1 m2 c1 c2 ?_
        rw [hcs, hl2]
  intro z hz
  rcases hz with ⟨⟨hz1, hz2⟩, hz3, hz4⟩
  rw [hS1] at hz1 hz2
  rw [hS2] at hz3 hz4
  rcases hgap with hg | hg
  · linarith [hb1, hb2, hband1, hband2]
  · linarith [hb1, hb2, hband1, hband2]

theorem exW220_layout_full : layoutTree (exScenarioW 220 220 220) =
    [{ mkNode 1 none 220 60 with x := 50, y := 110 },
     { mkNode 2 (some 1) 220 60 with x := 390, y := 50 },
     { mkNode 3 (some 1) 220 100 with x := 390, y := 130 }] := by
  rw [layoutTree, if_neg (by simp [exScenarioW] : ¬(exScenarioW 220 220 220).isEmpty = true)]
  rw [exW_pos 220 220 220]
  norm_num [exScenarioW, mkNode, amGet_cons]

/-- C1 witness: for the scenario forest with width 220, the bands of siblings
B (band [50, 110)) and C (band [130, 230)) under root A do not intersect. -/
theorem sibling_bands_witness :
    ¬((((50:Rat) ≤ 50 ∧
        (50:Rat) < 50 + ((amGet (layoutSubtreeHeights (exScenarioW 220 220 220)) 2).getD 0)) ∧
      ((130:Rat) ≤ 50 ∧
        (50:Rat) < 130 + ((amGet (layoutSubtreeHeights (exScenarioW 220 220 220)) 3).getD 0)))) := by
  intro hz
  have h := @sibling_subtree_bands_disjoint (exScenarioW 220 220 220) exScenarioRank
    (by unfold UniqueIds exScenarioW; decide)
    (by unfold RankOk exScenarioW exScenarioRank; decide)
    (by unfold RankBounded exScenarioW exScenarioRank; decide)
    (by unfold ParentsResolve exScenarioW; decide)
    (by unfold PositiveHeights exScenarioW; norm_num [mkNode])
    (mkNode 1 none 220 60) (mkNode 2 (some 1) 220 60)
    (mkNode 3 (some 1) 220 100)
    (by simp [exScenarioW]) (by simp [exScenarioW]) (by simp [exScenarioW])
    rfl rfl (by decide)
    { mkNode 2 (some 1) 220 60 with x := 390, y := 50 }
    { mkNode 3 (some 1) 220 100 with x := 390, y := 130 }
    (by rw [exW220_layout_full]; simp) (by rw [exW220_layout_full]; simp)
    rfl rfl 50
  apply h
  rw [exW_sh] at hz ⊢
  norm_num [amGet_cons, mkNode] at hz ⊢

/-! ## The layout depends only on the skeleton (id, parentId, width, height) -/

theorem skelEq_id {a b : Node} (h : SkelEq a b) : a.id = b.id := h.1

theorem foldl_forall2 {α β : Type _} {R : α → α → Prop} {f g : β → α → β} :
    ∀ {l1 l2 : List α}, List.Forall₂ R l1 l2 → (∀ a x y, R x y → f a x = g a y) →
      ∀ a, l1.foldl f a = l2.foldl g a := by
  intro l1 l2 hrel
  induction hrel with
  | nil => intro _ a; rfl
  | cons hxy htl ih =>
    intro hfg a
    simp only [List.foldl_cons]
    rw [hfg a _ _ hxy]
    exact ih hfg _

theorem takeWhile_forall2 {α : Type _} {R : α → α → Prop} {p q : α → Bool} :
    ∀ {l1 l2 : List α}, List.Forall₂ R l1 l2 → (∀ x y, R x y → p x = q y) →
      List.Forall₂ R (l1.takeWhile p) (l2.takeWhile q) := by
  intro l1 l2 hrel
  induction hrel with
  | nil => intro _; exact List.Forall₂.nil
  | cons hxy htl ih =>
    rename_i x y tl1 tl2
    intro hpq
    rw [List.takeWhile_cons, List.takeWhile_cons, ← hpq _ _ hxy]
    by_cases hp : p x = true
    · rw [if_pos hp, if_pos hp]
      exact List.Forall₂.cons hxy (ih hpq)
    · rw [if_neg hp, if_neg hp]
      exact List.Forall₂.nil

theorem filter_forall2 {α : Type _} {R : α → α → Prop} {p q : α → Bool} :
    ∀ {l1 l2 : List α}, List.Forall₂ R l1 l2 → (∀ x y, R x y → p x = q y) →
      List.Forall₂ R (l1.filter p) (l2.filter q) := by
  intro l1 l2 hrel
  induction hrel with
  | nil => intro _; exact List.Forall₂.nil
  | cons hxy htl ih =>
    rename_i x y tl1 tl2
    intro hpq
    rw [List.filter_cons, List.filter_cons, ← hpq _ _ hxy]
    by_cases hp : p x = true
    · rw [if_pos hp, if_pos hp]
      exact List.Forall₂.cons hxy (ih hpq)
    · rw [if_neg hp, if_neg hp]
      exact ih hpq

theorem findNode_forall2 {ns1 ns2 : List Node} (hrel : List.Forall₂ SkelEq ns1 ns2) (t : Nat) :
    (findNode ns1 t = none ∧ findNode ns2 t = none) ∨
    (∃ a b, findNode ns1 t = some a ∧ findNode ns2 t = some b ∧ SkelEq a b) := by
  induction hrel with
  | nil => exact Or.inl ⟨rfl, rfl⟩
  | cons hxy htl ih =>
    rename_i x y l1 l2
    by_cases hp : x.id = t
    · right
      refine ⟨x, y, ?_, ?_, hxy⟩
      · exact List.find?_cons_of_pos _ (by simpa using hp)
      · exact List.find?_cons_of_pos _ (by simpa using (hxy.1 ▸ hp))
    · have h2 : ¬(y.id = t) := by rw [← hxy.1]; exact hp
      unfold findNode
      rw [List.find?_cons_of_neg _ (by simpa using hp), List.find?_cons_of_neg _ (by simpa using h2)]
      exact ih

theorem childrenOf_forall2 {ns1 ns2 : List Node} (hrel : List.Forall₂ SkelEq ns1 ns2) (t : Nat) :
    List.Forall₂ SkelEq (childrenOf ns1 t) (childrenOf ns2 t) :=
  filter_forall2 hrel (fun x y hxy => by rw [show x.parentId = y.parentId from hxy.2.1])

theorem layoutRoots_forall2 {ns1 ns2 : List Node} (hrel : List.Forall₂ SkelEq ns1 ns2) :
    List.Forall₂ SkelEq (layoutRoots ns1) (layoutRoots ns2) :=
  filter_forall2 hrel (fun x y hxy => by rw [show x.parentId = y.parentId from hxy.2.1])

theorem shOf_forall2 {ns1 ns2 : List Node} (hrel : List.Forall₂ SkelEq ns1 ns2) :
    ∀ f {n1 n2 : Node}, SkelEq n1 n2 → shOf ns1 f n1 = shOf ns2 f n2 := by
  intro f
  induction f with
  | zero => intro n1 n2 _; rfl
  | succ f ih =>
    intro n1 n2 hn
    simp only [shOf]
    have hch := childrenOf_forall2 hrel n1.id
    rw [show n1.id = n2.id from hn.1] at hch
    have hlen := List.Forall₂.length_eq hch
    have hemp : (childrenOf ns1 n2.id).isEmpty = (childrenOf ns2 n2.id).isEmpty := by
      by_cases h1 : childrenOf ns1 n2.id = []
      · have h2 : childrenOf ns2 n2.id = [] := by
          rw [← List.length_eq_zero, ← hlen, h1]
          rfl
        rw [h1, h2]
      · have h2 : childrenOf ns2 n2.id ≠ [] := by
          intro he
          exact h1 (by rw [← List.length_eq_zero, hlen, he]; rfl)
        rcases List.exists_cons_of_ne_nil h1 with ⟨a, l, ha⟩
        rcases List.exists_cons_of_ne_nil h2 with ⟨b, m, hb⟩
        rw [ha, hb]
        rfl
    have hfold : (childrenOf ns1 n2.id).foldl (fun a c => a + shOf ns1 f c) 0 =
        (childrenOf ns2 n2.id).foldl (fun a c => a + shOf ns2 f c) 0 :=
      foldl_forall2 hch (fun a x y hxy => by rw [ih hxy]) 0
    rw [show n1.id = n2.id from hn.1, hemp, hfold, hlen,
      show n1.height = n2.height from hn.2.2.2]

theorem shOfAt_forall2 {ns1 ns2 : List Node} (hrel : List.Forall₂ SkelEq ns1 ns2) (t : Nat) :
    shOfAt ns1 t = shOfAt ns2 t := by
  unfold shOfAt
  have hlen := List.Forall₂.length_eq hrel
  rcases findNode_forall2 hrel t with ⟨h1, h2⟩ | ⟨a, b, h1, h2, hab⟩
  · rw [h1, h2]
  · rw [h1, h2]
    rw [← hlen] at *
    exact shOf_forall2 hrel ns1.length hab

theorem rootBand_forall2 {ns1 ns2 : List Node} (hrel : List.Forall₂ SkelEq ns1 ns2)
    {n1 n2 : Node} (hn : SkelEq n1 n2) : rootBand ns1 n1 = rootBand ns2 n2 := by
  unfold rootBand
  have htw := takeWhile_forall2 (layoutRoots_forall2 hrel)
    (p := fun r => r.id != n1.id) (q := fun r => r.id != n2.id)
    (fun x y hxy => by
      simp only [show x.id = y.id from hxy.1, show n1.id = n2.id from hn.1])
  have hfold := foldl_forall2 htw
    (f := fun a r => a + shOfAt ns1 r.id + V_SPACE * 2)
    (g := fun a r => a + shOfAt ns2 r.id + V_SPACE * 2)
    (fun a x y hxy => by
      simp only [show x.id = y.id from hxy.1, shOfAt_forall2 hrel]) 0
  rw [hfold]

theorem siblingOffset_forall2 {ns1 ns2 : List Node} (hrel : List.Forall₂ SkelEq ns1 ns2)
    {p1 p2 n1 n2 : Node} (hp : SkelEq p1 p2) (hn : SkelEq n1 n2) :
    siblingOffset ns1 p1 n1 = siblingOffset ns2 p2 n2 := by
  unfold siblingOffset
  have hch := childrenOf_forall2 hrel p1.id
  rw [show p1.id = p2.id from hp.1] at hch
  have htw := takeWhile_forall2 hch
    (p := fun c => c.id != n1.id) (q := fun c => c.id != n2.id)
    (fun x y hxy => by
      simp only [show x.id = y.id from hxy.1, show n1.id = n2.id from hn.1])
  have hfold := foldl_forall2 htw
    (f := fun a c => a + shOfAt ns1 c.id + V_SPACE)
    (g := fun a c => a + shOfAt ns2 c.id + V_SPACE)
    (fun a x y hxy => by
      simp only [show x.id = y.id from hxy.1, shOfAt_forall2 hrel]) 0
  rw [show p1.id = p2.id from hp.1, hfold]

theorem specX_forall2 {ns1 ns2 : List Node} (hrel : List.Forall₂ SkelEq ns1 ns2) :
    ∀ f {n1 n2 : Node}, SkelEq n1 n2 → specX ns1 f n1 = specX ns2 f n2 := by
  intro f
  induction f with
  | zero => intro n1 n2 _; rfl
  | succ f ih =>
    intro n1 n2 hn
    simp only [specX]
    rw [show n1.parentId = n2.parentId from hn.2.1]
    cases hpid : n2.parentId with
    | none => rfl
    | some pid =>
      show (match findNode ns1 pid with
        | none => (50:Rat)
        | some p => specX ns1 f p + p.width + H_SPACE) =
        (match findNode ns2 pid with
        | none => (50:Rat)
        | some p => specX ns2 f p + p.width + H_SPACE)
      rcases findNode_forall2 hrel pid with ⟨h1, h2⟩ | ⟨a, b, h1, h2, hab⟩
      · rw [h1, h2]
      · rw [h1, h2]
        show specX ns1 f a + a.width + H_SPACE = specX ns2 f b + b.width + H_SPACE
        rw [ih hab, show a.width = b.width from hab.2.2.1]

theorem specBand_forall2 {ns1 ns2 : List Node} (hrel : List.Forall₂ SkelEq ns1 ns2) :
    ∀ f {n1 n2 : Node}, SkelEq n1 n2 → specBand ns1 f n1 = specBand ns2 f n2 := by
  intro f
  induction f with
  | zero => intro n1 n2 hn; exact rootBand_forall2 hrel hn
  | succ f ih =>
    intro n1 n2 hn
    simp only [specBand]
    rw [show n1.parentId = n2.parentId from hn.2.1]
    cases hpid : n2.parentId with
    | none => exact rootBand_forall2 hrel hn
    | some pid =>
      show (match findNode ns1 pid with
        | none => rootBand ns1 n1
        | some p => specBand ns1 f p + siblingOffset ns1 p n1) =
        (match findNode ns2 pid with
        | none => rootBand ns2 n2
        | some p => specBand ns2 f p + siblingOffset ns2 p n2)
      rcases findNode_forall2 hrel pid with ⟨h1, h2⟩ | ⟨a, b, h1, h2, hab⟩
      · rw [h1, h2]
        exact rootBand_forall2 hrel hn
      · rw [h1, h2]
        show specBand ns1 f a + siblingOffset ns1 a n1 = specBand ns2 f b + siblingOffset ns2 b n2
        rw [ih hab, siblingOffset_forall2 hrel hab hn]

theorem specXAt_forall2 {ns1 ns2 : List Node} (hrel : List.Forall₂ SkelEq ns1 ns2) (t : Nat) :
    specXAt ns1 t = specXAt ns2 t := by
  unfold specXAt
  have hlen := List.Forall₂.length_eq hrel
  rcases findNode_forall2 hrel t with ⟨h1, h2⟩ | ⟨a, b, h1, h2, hab⟩
  · rw [h1, h2]
  · rw [h1, h2, ← hlen]
    show specX ns1 ns1.length a = specX ns2 ns1.length b
    exact specX_forall2 hrel ns1.length hab

theorem specYAt_forall2 {ns1 ns2 : List Node} (hrel : List.Forall₂ SkelEq ns1 ns2) (t : Nat) :
    specYAt ns1 t = specYAt ns2 t := by
  unfold specYAt
  have hlen := List.Forall₂.length_eq hrel
  rcases findNode_forall2 hrel t with ⟨h1, h2⟩ | ⟨a, b, h1, h2, hab⟩
  · rw [h1, h2]
  · rw [h1, h2, ← hlen]
    show specBand ns1 ns1.length a + (shOf ns1 ns1.length a - a.height) / 2 =
      specBand ns2 ns1.length b + (shOf ns2 ns1.length b - b.height) / 2
    rw [specBand_forall2 hrel ns1.length hab, shOf_forall2 hrel ns1.length hab,
      show a.height = b.height from hab.2.2.2]

/-- C5 amended.  On well-formed forests the layout is a function of the
skeleton only: for two inputs that agree pointwise on id, parentId, width and
height (and order), every output node receives identical x and y.  (For every
pure function two calls on identical input trivially coincide; the content of
the claim is this independence from the carried x/y and the payload, and it
requires well-formedness: a node with a dangling parentId keeps its input
position, see the counterexample.) -/
theorem layout_skeleton_determined (ns1 ns2 : List Node) (rank : Nat → Nat)
    (hu1 : UniqueIds ns1) (hrk1 : RankOk rank ns1) (hrb1 : RankBounded rank ns1)
    (hpr1 : ParentsResolve ns1)
    (hu2 : UniqueIds ns2) (hrk2 : RankOk rank ns2) (hrb2 : RankBounded rank ns2)
    (hpr2 : ParentsResolve ns2)
    (hrel : List.Forall₂ SkelEq ns1 ns2) :
    (layoutTree ns1).length = (layoutTree ns2).length ∧
    ∀ i (h1 : i < (layoutTree ns1).length) (h2 : i < (layoutTree ns2).length),
      ((layoutTree ns1).get ⟨i, h1⟩).x = ((layoutTree ns2).get ⟨i, h2⟩).x ∧
      ((layoutTree ns1).get ⟨i, h1⟩).y = ((layoutTree ns2).get ⟨i, h2⟩).y := by
  have hchar1 := layoutTree_char ns1 rank hu1 hrk1 hrb1 hpr1
  have hchar2 := layoutTree_char ns2 rank hu2 hrk2 hrb2 hpr2
  have hlen := List.Forall₂.length_eq hrel
  have hget := List.forall₂_iff_get.mp hrel
  constructor
  · rw [hchar1, hchar2]
    simp [hlen]
  · intro i h1 h2
    have hi1 : i < ns1.length := by
      have := h1
      rw [hchar1] at this
      simpa using this
    have hi2 : i < ns2.length := by
      have := h2
      rw [hchar2] at this
      simpa using this
    have hsk : SkelEq (ns1.get ⟨i, hi1⟩) (ns2.get ⟨i, hi2⟩) := hget.2 i hi1 hi2
    have hid : (ns1.get ⟨i, hi1⟩).id = (ns2.get ⟨i, hi2⟩).id := hsk.1
    have eg1 : (layoutTree ns1).get ⟨i, h1⟩ =
        { ns1.get ⟨i, hi1⟩ with
          x := specXAt ns1 (ns1.get ⟨i, hi1⟩).id, y := specYAt ns1 (ns1.get ⟨i, hi1⟩).id } := by
      rw [List.get_of_eq hchar1 ⟨i, h1⟩]
      simp [List.get_eq_getElem, List.getElem_map]
    have eg2 : (layoutTree ns2).get ⟨i, h2⟩ =
        { ns2.get ⟨i, hi2⟩ with
          x := specXAt ns2 (ns2.get ⟨i, hi2⟩).id, y := specYAt ns2 (ns2.get ⟨i, hi2⟩).id } := by
      rw [List.get_of_eq hchar2 ⟨i, h2⟩]
      simp [List.get_eq_getElem, List.getElem_map]
    rw [eg1, eg2]
    constructor
    · show specXAt ns1 (ns1.get ⟨i, hi1⟩).id = specXAt ns2 (ns2.get ⟨i, hi2⟩).id
      rw [hid, specXAt_forall2 hrel]
    · show specYAt ns1 (ns1.get ⟨i, hi1⟩).id = specYAt ns2 (ns2.get ⟨i, hi2⟩).id
      rw [hid, specYAt_forall2 hrel]

theorem layoutTree_length (nodes : List Node) : (layoutTree nodes).length = nodes.length := by
  rw [layoutTree]
  by_cases h : nodes.isEmpty
  · rw [if_pos h]
    have : nodes = [] := by simpa using h
    rw [this]
  · rw [if_neg h]
    exact List.length_map _ _

/-- C5 witness: two skeleton-equal single-root inputs that differ in carried x
and in text receive the same output x (both 50). -/
theorem layout_skeleton_determined_witness :
    ((layoutTree exDetA).get ⟨0, by rw [layoutTree_length]; decide⟩).x =
    ((layoutTree exDetB).get ⟨0, by rw [layoutTree_length]; decide⟩).x :=
  ((layout_skeleton_determined exDetA exDetB (fun _ => 0)
    (by unfold UniqueIds exDetA; decide)
    (by unfold RankOk exDetA; decide)
    (by unfold RankBounded exDetA; decide)
    (by unfold ParentsResolve exDetA; decide)
    (by unfold UniqueIds exDetB; decide)
    (by unfold RankOk exDetB; decide)
    (by unfold RankBounded exDetB; decide)
    (by unfold ParentsResolve exDetB; decide)
    (List.Forall₂.cons ⟨rfl, rfl, rfl, rfl⟩ List.Forall₂.nil)).2 0
    (by rw [layoutTree_length]; decide) (by rw [layoutTree_length]; decide)).1

/-! ## The visibility filter -/

theorem nodesWithHeights_id_parent (nodes : List Node) :
    ∀ n' ∈ nodesWithHeights nodes, ∃ n ∈ nodes,
      n'.id = n.id ∧ n'.parentId = n.parentId ∧ n'.meetingIds = n.meetingIds := by
  intro n' hn'
  rcases List.mem_map.mp hn' with ⟨n, hn, rfl⟩
  exact ⟨n, hn, rfl, rfl, rfl⟩

theorem foldl_if_false {α β : Type _} {pred : α → Bool} {step : β → α → β} :
    ∀ (l : List α) (acc : β), (∀ n ∈ l, pred n = false) →
      l.foldl (fun vis n => if pred n then step vis n else vis) acc = acc := by
  intro l
  induction l with
  | nil => intro acc _; rfl
  | cons hd tl ih =>
    intro acc h
    rw [List.foldl_cons, if_neg (by rw [h hd (List.mem_cons_self hd tl)]; exact Bool.false_ne_true)]
    exact ih acc (fun n hn => h n (List.mem_cons_of_mem _ hn))

/-- C9 amended.  A filter referencing an id that no node carries produces an
empty visible set in the meeting mode, and also in focus mode provided no
node's `parentId` equals the stale focus id; a dangling `parentId` pointing at
the stale focus id keeps that subtree visible (see the counterexample). -/
theorem missing_filter_target_empty (extractText : String → String) (owners : List Owner)
    (searchQuery : String) (priorityFilter filterByNodeId filterByMeetingId : Option Nat)
    (nodes : List Node)
    (h : (∃ m : Nat, filterByMeetingId = some m ∧ m ≠ 0 ∧
          ∀ n ∈ nodes, n.meetingIds.contains m = false) ∨
        (filterByMeetingId.getD 0 = 0 ∧ ∃ f : Nat, filterByNodeId = some f ∧ f ≠ 0 ∧
          (∀ n ∈ nodes, n.id ≠ f) ∧ (∀ n ∈ nodes, n.parentId ≠ some f))) :
    displayedNodes extractText owners searchQuery priorityFilter filterByNodeId
      filterByMeetingId nodes = [] := by
  rcases h with ⟨m, hm, hm0, hnone⟩ | ⟨hmz, f, hf, hf0, hid, hpar⟩
  · have hempty : visibleNodes extractText owners searchQuery priorityFilter filterByNodeId
        filterByMeetingId nodes = [] := by
      unfold visibleNodes
      rw [hm]
      have htruthy : (some m).getD 0 != 0 := by simpa using hm0
      rw [if_pos (by rw [htruthy]; rfl)]
      rw [if_pos htruthy]
      have hvis : (nodesWithHeights nodes).foldl
          (fun vis n =>
            if meetingMatch ((some m).getD 0) n then
              addWalk (nodesWithHeights nodes) ((nodesWithHeights nodes).length + 1) vis
                (jsMapGet Node.id (nodesWithHeights nodes) n.id)
            else vis) [] = [] := by
        refine foldl_if_false _ _ (fun n hn => ?_)
        rcases nodesWithHeights_id_parent nodes n hn with ⟨n0, hn0, _, _, hmeet⟩
        unfold meetingMatch
        rw [hmeet]
        exact hnone n0 hn0
      rw [hvis]
      refine List.filter_eq_nil_iff.mpr (fun n hn => ?_)
      simp
    unfold displayedNodes
    rw [hempty]
    rfl
  · have hempty : visibleNodes extractText owners searchQuery priorityFilter filterByNodeId
        filterByMeetingId nodes = [] := by
      unfold visibleNodes
      rw [hf]
      have hmfalse : (filterByMeetingId.getD 0 != 0) = false := by simpa using hmz
      have htruthy : ((some f).getD 0 != 0) = true := by simpa using hf0
      rw [if_pos (by rw [hmfalse, htruthy]; rfl)]
      rw [if_neg (by rw [hmfalse]; exact Bool.false_ne_true), if_pos htruthy]
      have hjs : jsMapGet Node.id (nodesWithHeights nodes) f = none := by
        unfold jsMapGet
        refine List.find?_eq_none.mpr (fun n hn => ?_)
        rcases nodesWithHeights_id_parent nodes n (List.mem_reverse.mp hn) with ⟨n0, hn0, hids, _, _⟩
        have := hid n0 hn0
        rw [← hids] at this
        simpa using this
      have hchildren : (nodesWithHeights nodes).filter
          (fun n => n.parentId == some f) = [] := by
        refine List.filter_eq_nil_iff.mpr (fun n hn => ?_)
        rcases nodesWithHeights_id_parent nodes n hn with ⟨n0, hn0, _, hpp, _⟩
        have := hpar n0 hn0
        rw [← hpp] at this
        simpa using this
      have hdesc : descWalk (nodesWithHeights nodes) ((nodesWithHeights nodes).length + 1)
          f (ancWalk (nodesWithHeights nodes) ((nodesWithHeights nodes).length + 1) []
            (jsMapGet Node.id (nodesWithHeights nodes) f)) = [f] := by
        rw [hjs]
        have hanc : ancWalk (nodesWithHeights nodes) ((nodesWithHeights nodes).length + 1) []
            none = [] := rfl
        rw [hanc, descWalk, hchildren]
        rfl
      simp only [Option.getD_some]
      rw [hdesc]
      refine List.filter_eq_nil_iff.mpr (fun n hn => ?_)
      rcases nodesWithHeights_id_parent nodes n hn with ⟨n0, hn0, hids, _, _⟩
      have := hid n0 hn0
      rw [← hids] at this
      simpa using this
    unfold displayedNodes
    rw [hempty]
    rfl

theorem missing_filter_target_empty_witness :
    displayedNodes (fun s => s) [] "" none none (some 9) exChain = [] :=
  missing_filter_target_empty (fun s => s) [] "" none none (some 9) exChain
    (Or.inl ⟨9, rfl, by decide, by decide⟩)

/-! ## Closure properties of the ancestor walks -/

theorem parentStep_iff {l : List Node} (hu : UniqueIds l) (hz : NonzeroIds l)
    {c : Node} (hc : c ∈ l) (u : Nat) :
    stepUpId l c.id u ↔ ∃ q, parentStep l c = some q ∧ q.id = u := by
  constructor
  · rintro ⟨n, hn, hnid, hnpar, m, hm, hmid⟩
    have hnc : n = c := mem_id_inj hu hn hc hnid
    subst hnc
    unfold parentStep
    rw [hnpar]
    have hu0 : u ≠ 0 := by rw [← hmid]; exact hz m hm
    show ∃ q, (if (u == 0) = true then none else jsMapGet Node.id l u) = some q ∧ q.id = u
    rw [if_neg (by simpa using hu0)]
    exact ⟨m, jsMapGet_eq_of_mem hu hm hmid, hmid⟩
  · rintro ⟨q, hps, hqid⟩
    unfold parentStep at hps
    cases hpp : c.parentId with
    | none => rw [hpp] at hps; cases hps
    | some p =>
      rw [hpp] at hps
      have hps' : (if (p == 0) = true then none else jsMapGet Node.id l p) = some q := hps
      by_cases hp0 : (p == 0) = true
      · rw [if_pos hp0] at hps'; cases hps'
      · rw [if_neg hp0] at hps'
        rcases jsMapGet_mem hps' with ⟨hqmem, hqk⟩
        have hpu : p = u := by rw [← hqk, hqid]
        exact ⟨c, hc, rfl, by rw [hpp, hpu], q, hqmem, hqid⟩

theorem filter_notin_mono {vis vis' : List Nat} (hsub : ∀ t ∈ vis, t ∈ vis') :
    ∀ ml : List Nat,
      (ml.filter (fun t => decide (t ∉ vis'))).length ≤
        (ml.filter (fun t => decide (t ∉ vis))).length := by
  intro ml
  induction ml with
  | nil => exact le_refl _
  | cons x tl ih =>
    by_cases hx : x ∈ vis'
    · rw [List.filter_cons, if_neg (by simp [hx])]
      by_cases hx2 : x ∈ vis
      · rw [List.filter_cons, if_neg (by simp [hx2])]
        exact ih
      · rw [List.filter_cons, if_pos (by simp [hx2])]
        exact le_trans ih (Nat.le_succ _)
    · have hx2 : x ∉ vis := fun h => hx (hsub x h)
      rw [List.filter_cons, if_pos (by simp [hx]), List.filter_cons, if_pos (by simp [hx2])]
      simpa using ih

theorem filter_notin_lt {a : Nat} {vis : List Nat} (ha2 : a ∉ vis) :
    ∀ ml : List Nat, a ∈ ml →
      (ml.filter (fun t => decide (t ∉ a :: vis))).length <
        (ml.filter (fun t => decide (t ∉ vis))).length := by
  intro ml
  induction ml with
  | nil => intro h; cases h
  | cons x tl ih =>
    intro hmem
    by_cases hxa : x = a
    · subst hxa
      rw [List.filter_cons, if_neg (by simp), List.filter_cons, if_pos (by simp [ha2])]
      exact Nat.lt_succ_of_le (filter_notin_mono (fun t ht => List.mem_cons_of_mem _ ht) tl)
    · have hmem' : a ∈ tl := by
        rcases List.mem_cons.mp hmem with h | h
        · exact absurd h.symm hxa
        · exact h
      by_cases hx : x ∈ vis
      · rw [List.filter_cons, if_neg (by simp [List.mem_cons, hx]),
          List.filter_cons, if_neg (by simp [hx])]
        exact ih hmem'
      · have hx' : x ∉ a :: vis := by
          rw [List.mem_cons]
          rintro (h | h)
          · exact hxa h
          · exact hx h
        rw [List.filter_cons, if_pos (by simp [hx']), List.filter_cons, if_pos (by simp [hx])]
        exact Nat.succ_lt_succ (ih hmem')

theorem addWalk_closed {l : List Node} (hu : UniqueIds l) (hz : NonzeroIds l) :
    ∀ (fuel : Nat) (vis : List Nat) (cur : Option Node),
      (∀ q, cur = some q → q ∈ l) →
      ((l.map Node.id).filter (fun t => decide (t ∉ vis))).length < fuel →
      (∀ t ∈ vis, ∀ u, stepUpId l t u → u ∈ vis ∨ ∃ q, cur = some q ∧ q.id = u) →
      (∀ t ∈ vis, t ∈ addWalk l fuel vis cur) ∧
        ClosedUp l (addWalk l fuel vis cur) ∧
        (∀ q, cur = some q → q.id ∈ addWalk l fuel vis cur) := by
  intro fuel
  induction fuel with
  | zero => intro vis cur _ hf _; exact absurd hf (by omega)
  | succ fuel ih =>
    intro vis cur hcur hf hinv
    cases cur with
    | none =>
      refine ⟨fun t ht => ht, ?_, fun q hq => by cases hq⟩
      intro t ht u hstep
      rcases hinv t ht u hstep with h | ⟨q, hq, _⟩
      · exact h
      · cases hq
    | some c =>
      have hcl : c ∈ l := hcur c rfl
      by_cases hcv : c.id ∈ vis
      · have hres : addWalk l (fuel + 1) vis (some c) = vis := by
          simp only [addWalk]
          rw [if_pos hcv]
        rw [hres]
        refine ⟨fun t ht => ht, ?_, ?_⟩
        · intro t ht u hstep
          rcases hinv t ht u hstep with h | ⟨q, hq, hqu⟩
          · exact h
          · have hcq : c = q := Option.some.inj hq
            rw [← hcq] at hqu
            rw [← hqu]
            exact hcv
        · intro q hq
          have hcq : c = q := Option.some.inj hq
          rw [← hcq]
          exact hcv
      · have hres : addWalk l (fuel + 1) vis (some c) =
            addWalk l fuel (c.id :: vis) (parentStep l c) := by
          simp only [addWalk]
          rw [if_neg hcv]
        rw [hres]
        have hcur' : ∀ q, parentStep l c = some q → q ∈ l := by
          intro q hq
          unfold parentStep at hq
          cases hpp : c.parentId with
          | none => rw [hpp] at hq; cases hq
          | some p =>
            rw [hpp] at hq
            have hq' : (if (p == 0) = true then none else jsMapGet Node.id l p) = some q := hq
            by_cases hp0 : (p == 0) = true
            · rw [if_pos hp0] at hq'; cases hq'
            · rw [if_neg hp0] at hq'
              exact (jsMapGet_mem hq').1
        have hfuel' :
            ((l.map Node.id).filter (fun t => decide (t ∉ c.id :: vis))).length < fuel := by
          have hstrict := filter_notin_lt hcv (l.map Node.id) (List.mem_map.mpr ⟨c, hcl, rfl⟩)
          omega
        have hinv' : ∀ t ∈ c.id :: vis, ∀ u, stepUpId l t u →
            u ∈ c.id :: vis ∨ ∃ q, parentStep l c = some q ∧ q.id = u := by
          intro t ht u hstep
          rcases List.mem_cons.mp ht with rfl | htv
          · exact Or.inr ((parentStep_iff hu hz hcl u).mp hstep)
          · rcases hinv t htv u hstep with h | ⟨q, hq, hqu⟩
            · exact Or.inl (List.mem_cons_of_mem _ h)
            · have hcq : c = q := Option.some.inj hq
              rw [← hcq] at hqu
              exact Or.inl (by rw [← hqu]; exact List.mem_cons_self _ _)
        rcases ih (c.id :: vis) (parentStep l c) hcur' hfuel' hinv' with ⟨hsub, hcl2, _⟩
        refine ⟨fun t ht => hsub t (List.mem_cons_of_mem _ ht), hcl2, ?_⟩
        intro q hq
        have hcq : c = q := Option.some.inj hq
        rw [← hcq]
        exact hsub c.id (List.mem_cons_self _ _)

theorem foldWalk_closed {l : List Node} (hu : UniqueIds l) (hz : NonzeroIds l)
    (pred : Node → Bool) :
    ∀ (l2 : List Node) (vis : List Nat), (∀ x ∈ l2, x ∈ l) → ClosedUp l vis →
      ClosedUp l (l2.foldl (fun vis n => if pred n then
          addWalk l (l.length + 1) vis (jsMapGet Node.id l n.id) else vis) vis) ∧
      (∀ t ∈ vis, t ∈ l2.foldl (fun vis n => if pred n then
          addWalk l (l.length + 1) vis (jsMapGet Node.id l n.id) else vis) vis) ∧
      (∀ n ∈ l2, pred n = true → n.id ∈ l2.foldl (fun vis n => if pred n then
          addWalk l (l.length + 1) vis (jsMapGet Node.id l n.id) else vis) vis) := by
  intro l2
  induction l2 with
  | nil =>
    intro vis _ hcl
    exact ⟨hcl, fun t ht => ht, fun n hn => absurd hn (List.not_mem_nil n)⟩
  | cons x tl ih =>
    intro vis hsub hcl
    rw [List.foldl_cons]
    by_cases hp : pred x = true
    · rw [if_pos hp]
      have hx : x ∈ l := hsub x (List.mem_cons_self _ _)
      have hjs : jsMapGet Node.id l x.id = some x := jsMapGet_eq_of_mem hu hx rfl
      have hfb : ((l.map Node.id).filter (fun t => decide (t ∉ vis))).length < l.length + 1 := by
        have h1 := List.length_filter_le (fun t => decide (t ∉ vis)) (l.map Node.id)
        rw [List.length_map] at h1
        omega
      rcases addWalk_closed hu hz (l.length + 1) vis (jsMapGet Node.id l x.id)
          (fun q hq => (jsMapGet_mem hq).1) hfb
          (fun t ht u hstep => Or.inl (hcl t ht u hstep)) with ⟨hsub2, hcl2, hlast⟩
      rcases ih _ (fun y hy => hsub y (List.mem_cons_of_mem _ hy)) hcl2 with
        ⟨hcl3, hsub3, hmatch3⟩
      refine ⟨hcl3, fun t ht => hsub3 t (hsub2 t ht), ?_⟩
      intro n hn hpn
      rcases List.mem_cons.mp hn with rfl | hntl
      · exact hsub3 n.id (hlast n hjs)
      · exact hmatch3 n hntl hpn
    · rw [if_neg hp]
      rcases ih vis (fun y hy => hsub y (List.mem_cons_of_mem _ hy)) hcl with
        ⟨hcl3, hsub3, hmatch3⟩
      refine ⟨hcl3, hsub3, ?_⟩
      intro n hn hpn
      rcases List.mem_cons.mp hn with rfl | hntl
      · exact absurd hpn hp
      · exact hmatch3 n hntl hpn

theorem closedUp_ancestors {l : List Node} {s : List Nat} (hcl : ClosedUp l s)
    {t : Nat} (ht : t ∈ s) : ∀ u, AncestorId l t u → u ∈ s := by
  intro u h
  induction h with
  | refl => exact ht
  | tail _ hbc ih => exact hcl _ ih _ hbc

theorem ancestorId_target_mem {l : List Node} {t u : Nat} (h : AncestorId l t u)
    (ht : ∃ m ∈ l, m.id = t) : ∃ m ∈ l, m.id = u := by
  induction h with
  | refl => exact ht
  | tail _ hbc _ =>
    rcases hbc with ⟨n1, _, _, _, m, hm, hmid⟩
    exact ⟨m, hm, hmid⟩

theorem stepUpId_heights (nodes : List Node) (t u : Nat) :
    stepUpId (nodesWithHeights nodes) t u ↔ stepUpId nodes t u := by
  constructor
  · rintro ⟨n, hn, hnid, hnpar, m, hm, hmid⟩
    rcases List.mem_map.mp hn with ⟨n0, hn0, rfl⟩
    rcases List.mem_map.mp hm with ⟨m0, hm0, rfl⟩
    exact ⟨n0, hn0, hnid, hnpar, m0, hm0, hmid⟩
  · rintro ⟨n, hn, hnid, hnpar, m, hm, hmid⟩
    exact ⟨_, List.mem_map.mpr ⟨n, hn, rfl⟩, hnid, hnpar, _,
      List.mem_map.mpr ⟨m, hm, rfl⟩, hmid⟩

theorem ancestorId_heights (nodes : List Node) (t u : Nat) :
    AncestorId (nodesWithHeights nodes) t u ↔ AncestorId nodes t u :=
  ⟨Relation.ReflTransGen.mono (fun a b => (stepUpId_heights nodes a b).mp),
   Relation.ReflTransGen.mono (fun a b => (stepUpId_heights nodes a b).mpr)⟩

theorem uniqueIds_heights {nodes : List Node} (hu : UniqueIds nodes) :
    UniqueIds (nodesWithHeights nodes) := by
  unfold UniqueIds nodesWithHeights
  rw [List.pairwise_map]
  exact hu

theorem nonzeroIds_heights {nodes : List Node} (hz : NonzeroIds nodes) :
    NonzeroIds (nodesWithHeights nodes) := by
  intro n hn
  rcases List.mem_map.mp hn with ⟨n0, hn0, rfl⟩
  exact hz n0 hn0

theorem layoutTree_map_id (ns : List Node) : (layoutTree ns).map Node.id = ns.map Node.id := by
  unfold layoutTree
  cases ns with
  | nil => rfl
  | cons a tl =>
    rw [if_neg (by simp)]
    rw [List.map_map]
    refine List.map_congr_left (fun n _ => ?_)
    show (match amGet (layoutPositions (a :: tl)) n.id with
      | some p => { n with x := p.1, y := p.2 }
      | none => n).id = n.id
    cases amGet (layoutPositions (a :: tl)) n.id <;> rfl

theorem visibleNodes_meeting (extractText : String → String) (owners : List Owner)
    (searchQuery : String) (priorityFilter filterByNodeId filterByMeetingId : Option Nat)
    (nodes : List Node) (hm : filterByMeetingId.getD 0 ≠ 0) :
    visibleNodes extractText owners searchQuery priorityFilter filterByNodeId
      filterByMeetingId nodes =
    (nodesWithHeights nodes).filter (fun n =>
      ((nodesWithHeights nodes).foldl (fun vis n =>
        if meetingMatch (filterByMeetingId.getD 0) n then
          addWalk (nodesWithHeights nodes) ((nodesWithHeights nodes).length + 1) vis
            (jsMapGet Node.id (nodesWithHeights nodes) n.id)
        else vis) []).contains n.id) := by
  unfold visibleNodes
  have htm : (filterByMeetingId.getD 0 != 0) = true := by simpa using hm
  simp only [htm, Bool.true_or, if_true]

theorem visibleNodes_priority (extractText : String → String) (owners : List Owner)
    (searchQuery : String) (priorityFilter filterByNodeId filterByMeetingId : Option Nat)
    (nodes : List Node) (hm : filterByMeetingId.getD 0 = 0)
    (hn : filterByNodeId.getD 0 = 0) (hp : priorityFilter.getD 0 ≠ 0) :
    visibleNodes extractText owners searchQuery priorityFilter filterByNodeId
      filterByMeetingId nodes =
    (nodesWithHeights nodes).filter (fun n =>
      ((nodesWithHeights nodes).foldl (fun vis n =>
        if priorityMatch (priorityFilter.getD 0) n then
          addWalk (nodesWithHeights nodes) ((nodesWithHeights nodes).length + 1) vis
            (jsMapGet Node.id (nodesWithHeights nodes) n.id)
        else vis) []).contains n.id) := by
  unfold visibleNodes
  have htm : (filterByMeetingId.getD 0 != 0) = false := by simpa using hm
  have htn : (filterByNodeId.getD 0 != 0) = false := by simpa using hn
  have htp : (priorityFilter.getD 0 != 0) = true := by simpa using hp
  simp only [htm, htn, htp, Bool.false_or, Bool.true_or, if_true, if_false,
    Bool.false_eq_true, Bool.true_eq_false]

theorem visibleNodes_text (extractText : String → String) (owners : List Owner)
    (searchQuery : String) (priorityFilter filterByNodeId filterByMeetingId : Option Nat)
    (nodes : List Node) (hm : filterByMeetingId.getD 0 = 0)
    (hn : filterByNodeId.getD 0 = 0) (hp : priorityFilter.getD 0 = 0)
    (hq : searchQuery.trim.toLower ≠ "") :
    visibleNodes extractText owners searchQuery priorityFilter filterByNodeId
      filterByMeetingId nodes =
    (nodesWithHeights nodes).filter (fun n =>
      ((nodesWithHeights nodes).foldl (fun vis n =>
        if textMatch extractText owners searchQuery.trim.toLower n then
          addWalk (nodesWithHeights nodes) ((nodesWithHeights nodes).length + 1) vis
            (jsMapGet Node.id (nodesWithHeights nodes) n.id)
        else vis) []).contains n.id) := by
  unfold visibleNodes
  have htm : (filterByMeetingId.getD 0 != 0) = false := by simpa using hm
  have htn : (filterByNodeId.getD 0 != 0) = false := by simpa using hn
  have htp : (priorityFilter.getD 0 != 0) = false := by simpa using hp
  have htq : (searchQuery.trim.toLower != "") = true := by simpa using hq
  simp only [htm, htn, htp, htq, Bool.false_or, if_true, if_false,
    Bool.false_eq_true]

theorem visibleNodes_focus (extractText : String → String) (owners : List Owner)
    (searchQuery : String) (priorityFilter filterByNodeId filterByMeetingId : Option Nat)
    (nodes : List Node) (hm : filterByMeetingId.getD 0 = 0)
    (hn : filterByNodeId.getD 0 ≠ 0) :
    visibleNodes extractText owners searchQuery priorityFilter filterByNodeId
      filterByMeetingId nodes =
    (nodesWithHeights nodes).filter (fun n =>
      (descWalk (nodesWithHeights nodes) ((nodesWithHeights nodes).length + 1)
        (filterByNodeId.getD 0)
        (ancWalk (nodesWithHeights nodes) ((nodesWithHeights nodes).length + 1) []
          (jsMapGet Node.id (nodesWithHeights nodes)
            (filterByNodeId.getD 0)))).contains n.id) := by
  unfold visibleNodes
  have htm : (filterByMeetingId.getD 0 != 0) = false := by simpa using hm
  have htn : (filterByNodeId.getD 0 != 0) = true := by simpa using hn
  simp only [htm, htn, Bool.false_or, Bool.true_or, if_true, if_false,
    Bool.false_eq_true]

theorem foldWalk_filter_mem {nodes : List Node} (hu : UniqueIds nodes) (hz : NonzeroIds nodes)
    (pred : Node → Bool) {n : Node} (hn : n ∈ nodes)
    (hp : pred { n with height := calculateNodeHeight n } = true) {u : Nat}
    (hanc : AncestorId nodes n.id u) :
    u ∈ ((nodesWithHeights nodes).filter (fun x =>
      ((nodesWithHeights nodes).foldl (fun vis x => if pred x then
        addWalk (nodesWithHeights nodes) ((nodesWithHeights nodes).length + 1) vis
          (jsMapGet Node.id (nodesWithHeights nodes) x.id) else vis) []).contains x.id)).map
      Node.id := by
  have huL := uniqueIds_heights hu
  have hzL := nonzeroIds_heights hz
  have hnL : { n with height := calculateNodeHeight n } ∈ nodesWithHeights nodes :=
    List.mem_map.mpr ⟨n, hn, rfl⟩
  have hancL : AncestorId (nodesWithHeights nodes) n.id u :=
    (ancestorId_heights nodes n.id u).mpr hanc
  have hmemu : ∃ m ∈ nodesWithHeights nodes, m.id = u :=
    ancestorId_target_mem hancL ⟨_, hnL, rfl⟩
  rcases foldWalk_closed huL hzL pred (nodesWithHeights nodes) []
      (fun x hx => hx) (fun t ht => absurd ht (List.not_mem_nil t)) with ⟨hclos, _, hmem⟩
  have hnid := hmem _ hnL hp
  have huvis := closedUp_ancestors hclos hnid u hancL
  rcases hmemu with ⟨m, hmL, hmid⟩
  refine List.mem_map.mpr ⟨m, List.mem_filter.mpr ⟨hmL, ?_⟩, hmid⟩
  rw [hmid]
  simpa using huvis

/-- C6 amended.  In the meeting, priority and text filter modes, every node
matching the filter predicate is shown together with all of its ancestors,
provided no node carries the id `0`: the node itself and every id reachable
from it by parent links through present nodes appears among the ids of the
displayed output.  The proviso is necessary: a present parent with id `0` is
dropped, because the walk treats the child's `parentId` of `0` as falsy and
stops (see the counterexample). -/
theorem matched_node_ancestors_included (extractText : String → String) (owners : List Owner)
    (searchQuery : String) (priorityFilter filterByNodeId filterByMeetingId : Option Nat)
    (nodes : List Node) (hu : UniqueIds nodes) (hz : NonzeroIds nodes)
    {n : Node} (hn : n ∈ nodes)
    (hmatch : filterMatches extractText owners searchQuery priorityFilter filterByNodeId
      filterByMeetingId n) :
    ∀ u, AncestorId nodes n.id u →
      u ∈ (displayedNodes extractText owners searchQuery priorityFilter filterByNodeId
        filterByMeetingId nodes).map Node.id := by
  intro u hanc
  unfold displayedNodes
  rw [layoutTree_map_id]
  rcases hmatch with ⟨hm0, hmm⟩ | ⟨hm0, hn0, hp0, hpm⟩ | ⟨hm0, hn0, hp0, hq0, htxt⟩
  · rw [visibleNodes_meeting extractText owners searchQuery priorityFilter filterByNodeId
      filterByMeetingId nodes hm0]
    exact foldWalk_filter_mem hu hz
      (fun x => meetingMatch (filterByMeetingId.getD 0) x) hn hmm hanc
  · rw [visibleNodes_priority extractText owners searchQuery priorityFilter filterByNodeId
      filterByMeetingId nodes hm0 hn0 hp0]
    exact foldWalk_filter_mem hu hz
      (fun x => priorityMatch (priorityFilter.getD 0) x) hn hpm hanc
  · rw [visibleNodes_text extractText owners searchQuery priorityFilter filterByNodeId
      filterByMeetingId nodes hm0 hn0 hp0 hq0]
    exact foldWalk_filter_mem hu hz
      (fun x => textMatch extractText owners searchQuery.trim.toLower x) hn htxt hanc

theorem matched_node_ancestors_included_witness :
    (1 : Nat) ∈ (displayedNodes (fun s => s) [] "" (some 2) none none exPrio).map Node.id :=
  matched_node_ancestors_included (fun s => s) [] "" (some 2) none none exPrio
    (by unfold UniqueIds exPrio; decide) (by unfold NonzeroIds exPrio; decide)
    (show ({ mkNode 2 (some 1) 220 60 with priority := 2 } : Node) ∈ exPrio from
      by unfold exPrio; exact List.mem_cons_of_mem _ (List.mem_cons_self _ _))
    (Or.inr (Or.inl ⟨rfl, rfl, by decide, by decide⟩))
    1
    (Relation.ReflTransGen.single
      ⟨{ mkNode 2 (some 1) 220 60 with priority := 2 },
        by unfold exPrio; exact List.mem_cons_of_mem _ (List.mem_cons_self _ _), rfl, rfl,
        mkNode 1 none 220 60,
        by unfold exPrio; exact List.mem_cons_self _ _, rfl⟩)

/-! ## Exact characterization of the focus-mode walks -/

theorem rankOk_heights {rank : Nat → Nat} {nodes : List Node} (hrk : RankOk rank nodes) :
    RankOk rank (nodesWithHeights nodes) := by
  intro p hp c hc hpc
  rcases List.mem_map.mp hp with ⟨p0, hp0, rfl⟩
  rcases List.mem_map.mp hc with ⟨c0, hc0, rfl⟩
  exact hrk p0 hp0 c0 hc0 hpc

theorem rankBounded_heights {rank : Nat → Nat} {nodes : List Node}
    (hrb : RankBounded rank nodes) : RankBounded rank (nodesWithHeights nodes) := by
  intro n hn
  rcases List.mem_map.mp hn with ⟨n0, hn0, rfl⟩
  have := hrb n0 hn0
  simpa [nodesWithHeights] using this

theorem ancWalk_none (l : List Node) : ∀ (fuel : Nat) (vis : List Nat),
    ancWalk l fuel vis none = vis := by
  intro fuel vis
  cases fuel <;> rfl

theorem ancWalk_mem {l : List Node} (hu : UniqueIds l) (hz : NonzeroIds l)
    {rank : Nat → Nat} (hrk : RankOk rank l) (hrb : RankBounded rank l) :
    ∀ (fuel : Nat) (vis : List Nat) (c : Node), c ∈ l → l.length - rank c.id < fuel →
      ∀ t, t ∈ ancWalk l fuel vis (some c) ↔ t ∈ vis ∨ AncestorId l c.id t := by
  intro fuel
  induction fuel with
  | zero => intro vis c _ hf; exact absurd hf (by omega)
  | succ fuel ih =>
    intro vis c hc hf t
    have hstep : ancWalk l (fuel + 1) vis (some c) =
        ancWalk l fuel (c.id :: vis) (parentStep l c) := rfl
    rw [hstep]
    cases hps : parentStep l c with
    | none =>
      rw [ancWalk_none]
      constructor
      · intro ht
        rcases List.mem_cons.mp ht with rfl | htv
        · exact Or.inr Relation.ReflTransGen.refl
        · exact Or.inl htv
      · rintro (htv | hanc)
        · exact List.mem_cons_of_mem _ htv
        · rcases Relation.ReflTransGen.cases_head hanc with rfl | ⟨b, hb, _⟩
          · exact List.mem_cons_self _ _
          · rcases (parentStep_iff hu hz hc b).mp hb with ⟨q, hq, _⟩
            rw [hps] at hq
            cases hq
    | some q =>
      have hql : q ∈ l := by
        unfold parentStep at hps
        cases hpp : c.parentId with
        | none => rw [hpp] at hps; cases hps
        | some p =>
          rw [hpp] at hps
          have hps' : (if (p == 0) = true then none else jsMapGet Node.id l p) = some q := hps
          by_cases hp0 : (p == 0) = true
          · rw [if_pos hp0] at hps'; cases hps'
          · rw [if_neg hp0] at hps'
            exact (jsMapGet_mem hps').1
      have hsq : stepUpId l c.id q.id := (parentStep_iff hu hz hc q.id).mpr ⟨q, hps, rfl⟩
      have hrlt : rank c.id < rank q.id := by
        rcases hsq with ⟨n1, hn1, hid1, hpar1, m, hm, hmid⟩
        have hn1c : n1 = c := mem_id_inj hu hn1 hc hid1
        have hmq : m = q := mem_id_inj hu hm hql hmid
        have hcp : c.parentId = some q.id := by rw [← hn1c]; exact hpar1
        exact hrk q hql c hc hcp
      have hf' : l.length - rank q.id < fuel := by
        have := hrb q hql
        omega
      rw [ih (c.id :: vis) q hql hf' t]
      have hbridge : AncestorId l c.id t ↔ t = c.id ∨ AncestorId l q.id t := by
        constructor
        · intro hanc
          rcases Relation.ReflTransGen.cases_head hanc with rfl | ⟨b, hb, hbt⟩
          · exact Or.inl rfl
          · rcases (parentStep_iff hu hz hc b).mp hb with ⟨q2, hq2, hq2b⟩
            rw [hps] at hq2
            have : q = q2 := Option.some.inj hq2
            rw [this, hq2b]
            exact Or.inr hbt
        · rintro (rfl | hanc)
          · exact Relation.ReflTransGen.refl
          · exact Relation.ReflTransGen.head hsq hanc
      rw [hbridge]
      constructor
      · rintro (hcv | hanc)
        · rcases List.mem_cons.mp hcv with rfl | htv
          · exact Or.inr (Or.inl rfl)
          · exact Or.inl htv
        · exact Or.inr (Or.inr hanc)
      · rintro (htv | rfl | hanc)
        · exact Or.inl (List.mem_cons_of_mem _ htv)
        · exact Or.inl (List.mem_cons_self _ _)
        · exact Or.inr hanc

theorem descWalk_mem {l : List Node}
    {rank : Nat → Nat} (hrk : RankOk rank l) :
    ∀ (fuel : Nat) (t : Nat) (vis : List Nat) (nt : Node), nt ∈ l → nt.id = t →
      rank t < fuel →
      ∀ u, u ∈ descWalk l fuel t vis ↔
        u ∈ vis ∨ ∃ m, m ∈ l ∧ m.id = u ∧ AncestorId l u t := by
  intro fuel
  induction fuel with
  | zero => intro t vis nt _ _ hf; exact absurd hf (by omega)
  | succ fuel ih =>
    intro t vis nt hnt hntid hf u
    have hstep : descWalk l (fuel + 1) t vis =
        (l.filter (fun n => n.parentId == some t)).foldl
          (fun acc c => descWalk l fuel c.id acc) (t :: vis) := rfl
    rw [hstep]
    have hfold : ∀ (cs : List Node), (∀ c ∈ cs, c ∈ l ∧ c.parentId = some t) →
        ∀ (acc : List Nat) (u : Nat),
          u ∈ cs.foldl (fun acc c => descWalk l fuel c.id acc) acc ↔
            u ∈ acc ∨ ∃ c ∈ cs, ∃ m, m ∈ l ∧ m.id = u ∧ AncestorId l u c.id := by
      intro cs
      induction cs with
      | nil => intro _ acc u; simp
      | cons c cs ihc =>
        intro hcs acc u
        rw [List.foldl_cons]
        rcases hcs c (List.mem_cons_self _ _) with ⟨hcl, hcp⟩
        have hrc : rank c.id < fuel := by
          have h1 : rank c.id < rank nt.id := hrk nt hnt c hcl (by rw [hntid]; exact hcp)
          rw [hntid] at h1
          omega
        rw [ihc (fun x hx => hcs x (List.mem_cons_of_mem _ hx)) _ u]
        rw [ih c.id acc c hcl rfl hrc u]
        constructor
        · rintro ((hacc | hdesc) | ⟨c2, hc2, hm⟩)
          · exact Or.inl hacc
          · exact Or.inr ⟨c, List.mem_cons_self _ _, hdesc⟩
          · exact Or.inr ⟨c2, List.mem_cons_of_mem _ hc2, hm⟩
        · rintro (hacc | ⟨c2, hc2, hm⟩)
          · exact Or.inl (Or.inl hacc)
          · rcases List.mem_cons.mp hc2 with rfl | hc2tl
            · exact Or.inl (Or.inr hm)
            · exact Or.inr ⟨c2, hc2tl, hm⟩
    rw [hfold (l.filter (fun n => n.parentId == some t))
      (fun c hc => ⟨(List.mem_filter.mp hc).1, by simpa using (List.mem_filter.mp hc).2⟩)
      (t :: vis) u]
    have hbridge : (∃ m, m ∈ l ∧ m.id = u ∧ AncestorId l u t) ↔
        u = t ∨ ∃ c ∈ l.filter (fun n => n.parentId == some t),
          ∃ m, m ∈ l ∧ m.id = u ∧ AncestorId l u c.id := by
      constructor
      · rintro ⟨m, hm, hmid, hanc⟩
        rcases Relation.ReflTransGen.cases_tail hanc with heq | ⟨b, hub, hbt⟩
        · exact Or.inl heq.symm
        · rcases hbt with ⟨nb, hnb, hnbid, hnbpar, _, _, _⟩
          refine Or.inr ⟨nb, List.mem_filter.mpr ⟨hnb, by simp [hnbpar]⟩, m, hm, hmid, ?_⟩
          rw [hnbid]
          exact hub
      · rintro (rfl | ⟨c, hcf, m, hm, hmid, hanc⟩)
        · exact ⟨nt, hnt, hntid, Relation.ReflTransGen.refl⟩
        · rcases List.mem_filter.mp hcf with ⟨hcl, hcpb⟩
          have hcp : c.parentId = some t := by simpa using hcpb
          have hstep2 : stepUpId l c.id t := ⟨c, hcl, rfl, hcp, nt, hnt, hntid⟩
          exact ⟨m, hm, hmid, Relation.ReflTransGen.tail hanc hstep2⟩
    constructor
    · rintro (htv | ⟨c, hcf, hm⟩)
      · rcases List.mem_cons.mp htv with rfl | hv
        · exact Or.inr (hbridge.mpr (Or.inl rfl))
        · exact Or.inl hv
      · exact Or.inr (hbridge.mpr (Or.inr ⟨c, hcf, hm⟩))
    · rintro (hv | hm)
      · exact Or.inl (List.mem_cons_of_mem _ hv)
      · rcases hbridge.mp hm with rfl | ⟨c, hcf, hm2⟩
        · exact Or.inl (List.mem_cons_self _ _)
        · exact Or.inr ⟨c, hcf, hm2⟩

theorem nodesWithHeights_map_id (nodes : List Node) :
    (nodesWithHeights nodes).map Node.id = nodes.map Node.id := by
  unfold nodesWithHeights
  rw [List.map_map]
  rfl

theorem ancestorId_source_mem {l : List Node} {t u : Nat} (h : AncestorId l t u) :
    t = u ∨ ∃ m, m ∈ l ∧ m.id = t := by
  rcases Relation.ReflTransGen.cases_head h with rfl | ⟨b, hb, _⟩
  · exact Or.inl rfl
  · rcases hb with ⟨n1, hn1, hid1, _, _, _, _⟩
    exact Or.inr ⟨n1, hn1, hid1⟩

/-- C7 amended.  In focus mode with a focus node `f` present, for a well-formed
collection with nonzero ids the displayed set is exactly the ids related to `f`
by the parent-ancestor relation in either direction: the ancestors of `f`
(including `f` itself) and the descendants of `f`; input order is preserved
(the displayed id sequence is a sublist of the input id sequence).  The
nonzero-id proviso is necessary: an ancestor with id `0` is dropped by the
truthiness test in the walk (see the counterexample). -/
theorem focus_filter_exact (extractText : String → String) (owners : List Owner)
    (searchQuery : String) (priorityFilter filterByMeetingId : Option Nat)
    (nodes : List Node) (rank : Nat → Nat)
    (hu : UniqueIds nodes) (hz : NonzeroIds nodes)
    (hrk : RankOk rank nodes) (hrb : RankBounded rank nodes)
    (hm : filterByMeetingId.getD 0 = 0) {f : Nat} (hf : f ≠ 0)
    {nf : Node} (hnf : nf ∈ nodes) (hnfid : nf.id = f) :
    ((displayedNodes extractText owners searchQuery priorityFilter (some f) filterByMeetingId
        nodes).map Node.id).Sublist (nodes.map Node.id) ∧
      ∀ u, (u ∈ (displayedNodes extractText owners searchQuery priorityFilter (some f)
          filterByMeetingId nodes).map Node.id ↔
        (AncestorId nodes f u ∨ AncestorId nodes u f)) := by
  have hvis := visibleNodes_focus extractText owners searchQuery priorityFilter (some f)
    filterByMeetingId nodes hm (by simpa using hf)
  simp only [Option.getD_some] at hvis
  have huL := uniqueIds_heights hu
  have hzL := nonzeroIds_heights hz
  have hrkL := rankOk_heights hrk
  have hrbL := rankBounded_heights hrb
  have hnfL : ({ nf with height := calculateNodeHeight nf } : Node) ∈ nodesWithHeights nodes :=
    List.mem_map.mpr ⟨nf, hnf, rfl⟩
  have hnfLid : ({ nf with height := calculateNodeHeight nf } : Node).id = f := hnfid
  have hjs : jsMapGet Node.id (nodesWithHeights nodes) f =
      some { nf with height := calculateNodeHeight nf } :=
    jsMapGet_eq_of_mem huL hnfL hnfLid
  have hancw : ∀ t, t ∈ ancWalk (nodesWithHeights nodes) ((nodesWithHeights nodes).length + 1)
      [] (jsMapGet Node.id (nodesWithHeights nodes) f) ↔
      AncestorId (nodesWithHeights nodes) f t := by
    intro t
    rw [hjs]
    rw [ancWalk_mem huL hzL hrkL hrbL ((nodesWithHeights nodes).length + 1) []
      _ hnfL (by omega) t]
    rw [hnfLid]
    simp
  have hfl : rank f < (nodesWithHeights nodes).length + 1 := by
    have h2 := hrbL _ hnfL
    rw [hnfLid] at h2
    omega
  have hdescw : ∀ u, u ∈ descWalk (nodesWithHeights nodes)
      ((nodesWithHeights nodes).length + 1) f
      (ancWalk (nodesWithHeights nodes) ((nodesWithHeights nodes).length + 1) []
        (jsMapGet Node.id (nodesWithHeights nodes) f)) ↔
      (AncestorId (nodesWithHeights nodes) f u ∨
        ∃ m, m ∈ nodesWithHeights nodes ∧ m.id = u ∧
          AncestorId (nodesWithHeights nodes) u f) := by
    intro u
    rw [descWalk_mem hrkL ((nodesWithHeights nodes).length + 1) f
      (ancWalk (nodesWithHeights nodes) ((nodesWithHeights nodes).length + 1) []
        (jsMapGet Node.id (nodesWithHeights nodes) f))
      ({ nf with height := calculateNodeHeight nf }) hnfL hnfLid hfl u]
    rw [hancw u]
  constructor
  · unfold displayedNodes
    rw [layoutTree_map_id, hvis]
    have hsub : ((nodesWithHeights nodes).filter (fun n =>
        (descWalk (nodesWithHeights nodes) ((nodesWithHeights nodes).length + 1) f
          (ancWalk (nodesWithHeights nodes) ((nodesWithHeights nodes).length + 1) []
            (jsMapGet Node.id (nodesWithHeights nodes) f))).contains n.id)).Sublist
        (nodesWithHeights nodes) := List.filter_sublist _
    have hsub2 := List.Sublist.map Node.id hsub
    rw [nodesWithHeights_map_id] at hsub2
    exact hsub2
  · intro u
    unfold displayedNodes
    rw [layoutTree_map_id, hvis]
    constructor
    · intro hmem
      rcases List.mem_map.mp hmem with ⟨mnode, hmf, rfl⟩
      rcases List.mem_filter.mp hmf with ⟨hmL, hcont⟩
      have humem : mnode.id ∈ descWalk (nodesWithHeights nodes)
          ((nodesWithHeights nodes).length + 1) f
          (ancWalk (nodesWithHeights nodes) ((nodesWithHeights nodes).length + 1) []
            (jsMapGet Node.id (nodesWithHeights nodes) f)) := by simpa using hcont
      rcases (hdescw mnode.id).mp humem with hl | ⟨m2, _, _, hanc2⟩
      · exact Or.inl ((ancestorId_heights nodes f mnode.id).mp hl)
      · exact Or.inr ((ancestorId_heights nodes mnode.id f).mp hanc2)
    · intro hor
      have hwit : ∃ m, m ∈ nodesWithHeights nodes ∧ m.id = u := by
        rcases hor with h | h
        · have hL := (ancestorId_heights nodes f u).mpr h
          exact ancestorId_target_mem hL ⟨_, hnfL, hnfLid⟩
        · rcases ancestorId_source_mem ((ancestorId_heights nodes u f).mpr h) with rfl | hw
          · exact ⟨_, hnfL, hnfLid⟩
          · exact hw
      rcases hwit with ⟨m, hmL, hmid⟩
      have hudesc : u ∈ descWalk (nodesWithHeights nodes)
          ((nodesWithHeights nodes).length + 1) f
          (ancWalk (nodesWithHeights nodes) ((nodesWithHeights nodes).length + 1) []
            (jsMapGet Node.id (nodesWithHeights nodes) f)) := by
        refine (hdescw u).mpr ?_
        rcases hor with h | h
        · exact Or.inl ((ancestorId_heights nodes f u).mpr h)
        · exact Or.inr ⟨m, hmL, hmid, (ancestorId_heights nodes u f).mpr h⟩
      refine List.mem_map.mpr ⟨m, List.mem_filter.mpr ⟨hmL, ?_⟩, hmid⟩
      rw [hmid]
      simpa using hudesc

theorem focus_filter_exact_witness :
    (1 : Nat) ∈ (displayedNodes (fun s => s) [] "" none (some 2) none exChain).map Node.id :=
  ((focus_filter_exact (fun s => s) [] "" none none exChain exChainRank
      (by unfold UniqueIds exChain; decide) (by unfold NonzeroIds exChain; decide)
      (by unfold RankOk exChain exChainRank; decide)
      (by unfold RankBounded exChain exChainRank; decide)
      rfl (f := 2) (by decide)
      (show mkNode 2 (some 1) 220 60 ∈ exChain from by
        unfold exChain; exact List.mem_cons_of_mem _ (List.mem_cons_self _ _))
      rfl).2 1).mpr
    (Or.inl (Relation.ReflTransGen.single ⟨mkNode 2 (some 1) 220 60,
      by unfold exChain; exact List.mem_cons_of_mem _ (List.mem_cons_self _ _), rfl, rfl,
      mkNode 1 none 220 60, by unfold exChain; exact List.mem_cons_self _ _, rfl⟩))
